import Mathlib

/-!
Verification development for the easy-scrabble-backend repository.

The definitions below are a shallow embedding of `src/dictionary.py` and
`src/scrabble.py`.  Python strings are embedded as `List Char`, Python lists
as `List`, Python sets and dicts as association lists (the repository's
dicts are only ever used through membership, lookup and iteration).  Where
Python iterates over a `set` (whose iteration order is implementation
defined), the embedding takes the order as an explicit parameter.
-/

set_option maxRecDepth 4000

namespace Scrabble

/-- WordCouple from dictionary.py: stores a potential cross word, `index` is
the offset of the joker inside the word. -/
structure WordCouple where
  index : Nat
  word_str : List Char
deriving DecidableEq, Repr

/-- MaskItem from dictionary.py.  The Python class wraps one of three data
values: a `str` (a letter already on the board), a `dict` (an empty cell;
the dict is empty when the cell is open to any letter and maps letters to
`WordCouple`s when a cross word constrains it), or `None` (an empty cell
that cannot be used at all).  `dead` embeds the Python `None` case. -/
inductive MaskItem where
  | letter (c : Char)
  | dict (m : List (Char × WordCouple))
  | dead
deriving DecidableEq, Repr

/-- Mirrors `MaskItem.has_letter`. -/
def MaskItem.has_letter : MaskItem → Bool
  | .letter _ => true
  | _ => false

/-- Mirrors `MaskItem.has_no_letter`. -/
def MaskItem.has_no_letter : MaskItem → Bool
  | .letter _ => false
  | _ => true

/-- Mirrors `MaskItem.is_cross_word` (a non-empty dict). -/
def MaskItem.is_cross_word : MaskItem → Bool
  | .dict m => !m.isEmpty
  | _ => false

/-- Mirrors `MaskItem.is_open_to_any_letter` (an empty dict). -/
def MaskItem.is_open_to_any_letter : MaskItem → Bool
  | .dict m => m.isEmpty
  | _ => false

/-- Mirrors `MaskItem.is_usable` (any dict). -/
def MaskItem.is_usable : MaskItem → Bool
  | .dict _ => true
  | _ => false

/-- Mirrors `MaskItem.is_not_usable` (the `None` data). -/
def MaskItem.is_not_usable : MaskItem → Bool
  | .dead => true
  | _ => false

/-- Node/tree structure of dictionary.py's `Trie`.  A Python `Node` carries a
termination flag and a dict of outgoing edges; the parent pointer (`edge_in`)
is only used to rebuild the word at a termination node, which the embedding
does by carrying the path explicitly. -/
inductive Trie where
  | node (is_termination : Bool) (edges_out : List (Char × Trie))

/-- Termination flag of a node. -/
def Trie.is_termination : Trie → Bool
  | .node b _ => b

/-- Outgoing edges of a node. -/
def Trie.edges_out : Trie → List (Char × Trie)
  | .node _ es => es

mutual

/-- Embedding of `Trie._max_depth`: the number of node levels of the tree
(`len(self.trie)` in dictionary.py:165-167).  A trie built by `_add_word`
keeps its root at level 0 and the node reached after `i` letters at level
`i`, so the level count is one more than the length of the longest path out
of the root, computed here structurally. -/
def Trie.max_depth : Trie → Nat
  | .node _ es => 1 + Trie.max_depth_edges es

/-- Longest path length over a node's outgoing edges (0 when there are none). -/
def Trie.max_depth_edges : List (Char × Trie) → Nat
  | [] => 0
  | e :: es => max (Trie.max_depth e.2) (Trie.max_depth_edges es)

end

/-- Dict lookup on the outgoing edges of a node (Python `node.edges_out[letter]`). -/
def edgeLookup (c : Char) : List (Char × Trie) → Option Trie
  | [] => none
  | (a, t) :: rest => if a = c then some t else edgeLookup c rest

/-- Walk the trie along a word, following one edge per letter; `none` embeds
the Python `KeyError` path. -/
def walk : Trie → List Char → Option Trie
  | t, [] => some t
  | t, c :: cs =>
    match edgeLookup c t.edges_out with
    | some t' => walk t' cs
    | none => none

/-- True exactly on the uppercase letters A..Z (the asserts of dictionary.py
test `isalpha()` and `isupper()`, which on the board's character set means
exactly these letters). -/
def isUpperAZ (c : Char) : Bool := 'A' ≤ c && c ≤ 'Z'

/-- Embedding of `Trie.this_is_a_valid_word`: follow the edges of the word
and test the termination flag of the final node.  The function asserts that
its argument is an uppercase word of length 2 to 15 (dictionary.py:217-221);
`none` embeds the `AssertionError` raised outside that domain. -/
def this_is_a_valid_word (t : Trie) (s : List Char) : Option Bool :=
  if 1 < s.length ∧ s.length ≤ 15 ∧ s.all isUpperAZ then
    some (match walk t s with
      | some tEnd => tEnd.is_termination
      | none => false)
  else none

/-- Uppercase alphabet `A`..`Z`, mirroring `list(map(chr, range(65, 91)))`. -/
def upperAlphabet : List Char :=
  (List.range 26).map (fun k => Char.ofNat (65 + k))

/-- String.replace of the single blank: every blank of the pattern is replaced
by the candidate letter (the caller guarantees exactly one blank). -/
def substituteBlank (s : List Char) (c : Char) : List Char :=
  s.map (fun x => if x = ' ' then c else x)

/-- Index of the blank in the pattern, mirroring `string.index(" ")`. -/
def blankIndex (s : List Char) : Nat := s.indexOf ' '

/-- Letter loop of `possible_word_set_from_string`: each candidate letter is
substituted at the blank and tested, keeping it (with the blank offset and
the substituted word) when the result is a valid word.  An `AssertionError`
raised by `this_is_a_valid_word` (`none`) aborts the whole loop. -/
def pwsLoop (t : Trie) (s : List Char) : List Char → Option (List (Char × WordCouple))
  | [] => some []
  | letter :: rest =>
    match this_is_a_valid_word t (substituteBlank s letter) with
    | none => none
    | some ok =>
      match pwsLoop t s rest with
      | none => none
      | some acc =>
        some (if ok then (letter, ⟨blankIndex s, substituteBlank s letter⟩) :: acc
              else acc)

/-- Embedding of `Trie.possible_word_set_from_string`.  The function asserts
that the pattern is made of uppercase letters and blanks, has length at most
15 and holds exactly one blank (dictionary.py:280-284); `none` embeds a
raised `AssertionError`, from those asserts or from the length assert of
`this_is_a_valid_word` when the pattern is a single blank.  The Python dict
is built in alphabet order, embedded as an association list in that order. -/
def possible_word_set_from_string (t : Trie) (s : List Char) :
    Option (List (Char × WordCouple)) :=
  if s.all (fun c => isUpperAZ c || c == ' ') ∧ s.length ≤ 15 ∧ s.count ' ' = 1 then
    pwsLoop t s upperAlphabet
  else none

/-- One entry of the wavefront of `possible_words_for_mask_with_rack`: the
Python code keys the per-depth dict by trie node and stores the remaining
tile list; the word is the unique path from the root to the node, carried
explicitly here (the Python code recovers it through parent pointers). -/
structure WaveEntry where
  word : List Char
  node : Trie
  tiles : List Char

/-- Cross-word step of the masked search (mask item is a non-empty dict):
letters of the remaining tiles that are both mask keys and edges descend
consuming the letter; when a blank remains, mask-key edges not reachable by
an actual tile descend consuming the blank. -/
def stepCross (m : List (Char × WordCouple)) (e : WaveEntry) : List WaveEntry :=
  let letterNext := e.node.edges_out.filterMap (fun ct =>
    if ct.1 ∈ e.tiles ∧ (m.lookup ct.1).isSome then
      some ⟨e.word ++ [ct.1], ct.2, e.tiles.erase ct.1⟩
    else none)
  let jokerNext :=
    if ' ' ∈ e.tiles then
      e.node.edges_out.filterMap (fun ct =>
        if (m.lookup ct.1).isSome ∧ ¬(ct.1 ∈ e.tiles ∧ (m.lookup ct.1).isSome) then
          some ⟨e.word ++ [ct.1], ct.2, e.tiles.erase ' '⟩
        else none)
    else []
  letterNext ++ jokerNext

/-- Open step of the masked search (mask item is the empty dict): any
non-blank remaining tile whose letter is an edge descends consuming the
tile; when a blank remains, uppercase edges not reachable by an actual tile
descend consuming the blank. -/
def stepOpen (e : WaveEntry) : List WaveEntry :=
  let letterNext := e.node.edges_out.filterMap (fun ct =>
    if ct.1 ∈ e.tiles ∧ ct.1 ≠ ' ' then
      some ⟨e.word ++ [ct.1], ct.2, e.tiles.erase ct.1⟩
    else none)
  let jokerNext :=
    if ' ' ∈ e.tiles then
      e.node.edges_out.filterMap (fun ct =>
        if ct.1 ∈ upperAlphabet ∧ ¬(ct.1 ∈ e.tiles ∧ ct.1 ≠ ' ') then
          some ⟨e.word ++ [ct.1], ct.2, e.tiles.erase ' '⟩
        else none)
    else []
  letterNext ++ jokerNext

/-- Board-letter step of the masked search (mask item is a letter already on
the board): follow that single edge, tiles unchanged. -/
def stepLetter (c : Char) (e : WaveEntry) : List WaveEntry :=
  match edgeLookup c e.node.edges_out with
  | some t' => [⟨e.word ++ [c], t', e.tiles⟩]
  | none => []

/-- Dispatch on the mask item, mirroring the `is_cross_word` /
`is_open_to_any_letter` / `has_letter` branches of the Python loop body. -/
def stepItem : MaskItem → WaveEntry → List WaveEntry
  | .dict m, e => if m.isEmpty then stepOpen e else stepCross m e
  | .letter c, e => stepLetter c e
  | .dead, _ => []

/-- Main loop of `possible_words_for_mask_with_rack`: one iteration per mask
item; a `dead` item breaks out of the loop; after each advance, termination
nodes are collected once the depth has reached `min_length`. -/
def searchLoop (min_length : Nat) : List MaskItem → List WaveEntry → Nat → List (List Char)
  | [], _, _ => []
  | item :: rest, wave, depth =>
    match item with
    | .dead => []
    | _ =>
      let wave' := wave.flatMap (stepItem item)
      let collected :=
        if min_length ≤ depth + 1 then
          (wave'.filter (fun e => e.node.is_termination)).map (fun e => e.word)
        else []
      collected ++ searchLoop min_length rest wave' (depth + 1)

/-- Embedding of `Trie.possible_words_for_mask_with_rack`.  The function
first asserts that the mask is no longer than the trie's level count
(`assert len(mask) <= self._max_depth()`, dictionary.py:307); `none` embeds
the raised `AssertionError`.  The Python function returns a set of words;
the embedding returns the list of collected words (collection never produces
duplicates, as every wavefront entry at a given depth has a distinct path
word). -/
def possible_words_for_mask_with_rack (t : Trie) (mask : List MaskItem)
    (tile_list : List Char) (min_length : Nat) : Option (List (List Char)) :=
  if mask.length ≤ t.max_depth then
    some (if min_length = 0 then []
          else searchLoop min_length mask [⟨[], t, tile_list⟩] 0)
  else none

/-- Direction from scrabble.py: a word or line runs across or down. -/
inductive Direction where
  | accross
  | down
deriving DecidableEq, Repr

/-- Mirrors the `is_down` property. -/
def Direction.is_down : Direction → Bool
  | .down => true
  | .accross => false

/-- Mirrors the `is_accross` property. -/
def Direction.is_accross : Direction → Bool
  | .down => false
  | .accross => true

/-- Mirrors `Direction.ortho`. -/
def Direction.ortho : Direction → Direction
  | .down => .accross
  | .accross => .down

/-- Position on the 15 by 15 board (the Python class asserts 0..14 for both
coordinates). -/
structure Position where
  row : Nat
  col : Nat
deriving DecidableEq, Repr

/-- Flat index into the 225-cell arrays, mirroring `row * 15 + col`. -/
def posIdx (p : Position) : Nat := p.row * 15 + p.col

/-- Word from scrabble.py: text, direction and origin position. -/
structure Word where
  text : List Char
  direction : Direction
  origin : Position
deriving DecidableEq, Repr

/-- Position of the letter at offset `i` of the word. -/
def Word.posAt (w : Word) (i : Nat) : Position :=
  if w.direction.is_accross then ⟨w.origin.row, w.origin.col + i⟩
  else ⟨w.origin.row + i, w.origin.col⟩

/-- Mirrors the `Word.positions` generator. -/
def Word.positionsList (w : Word) : List Position :=
  (List.range w.text.length).map w.posAt

/-- Mirrors `Word.is_subset`: true when every position of `other` is a
position of `self`. -/
def Word.is_subset (self other : Word) : Bool :=
  other.positionsList.all (fun p => p ∈ self.positionsList)

/-- Mirrors `Word.intersection_index` (the asserts of the Python method
guarantee the subtraction does not underflow). -/
def Word.intersection_index (self other : Word) : Nat :=
  if self.direction.is_accross then other.origin.col - self.origin.col
  else other.origin.row - self.origin.row

/-- JokerTuple from scrabble.py: offset and letter of a blank used in a word. -/
structure JokerTuple where
  index : Nat
  letter : Char
deriving DecidableEq, Repr

/-- CrossWord from scrabble.py: the cross word and the offset inside it of
the letter shared with the main line. -/
structure CrossWord where
  word : Word
  index_of_main_word_line : Nat
deriving DecidableEq, Repr

/-- Tile values of the French letter set: the module initialises
`character_value = character_value_closure('FR')`.  Any character outside the
table would raise a `KeyError` in Python; the embedding returns 0 there. -/
def character_value : Char → Nat
  | 'E' => 1
  | 'A' => 1
  | 'I' => 1
  | 'N' => 1
  | 'O' => 1
  | 'R' => 1
  | 'S' => 1
  | 'T' => 1
  | 'U' => 1
  | 'L' => 1
  | 'D' => 2
  | 'M' => 2
  | 'G' => 2
  | 'B' => 3
  | 'C' => 3
  | 'P' => 3
  | 'F' => 4
  | 'H' => 4
  | 'V' => 4
  | 'J' => 8
  | 'Q' => 8
  | 'K' => 10
  | 'W' => 10
  | 'X' => 10
  | 'Y' => 10
  | 'Z' => 10
  | _ => 0

/-- Letter multiplier table of the standard board (225 entries). -/
def LETTER_MULTIPLIER_SET : List Nat := [
  1, 1, 1, 2, 1, 1, 1, 1, 1, 1, 1, 2, 1, 1, 1,
  1, 1, 1, 1, 1, 3, 1, 1, 1, 3, 1, 1, 1, 1, 1,
  1, 1, 1, 1, 1, 1, 2, 1, 2, 1, 1, 1, 1, 1, 1,
  2, 1, 1, 1, 1, 1, 1, 2, 1, 1, 1, 1, 1, 1, 2,
  1, 1, 1, 1, 1, 1, 1, 1, 1, 1, 1, 1, 1, 1, 1,
  1, 3, 1, 1, 1, 3, 1, 1, 1, 3, 1, 1, 1, 3, 1,
  1, 1, 2, 1, 1, 1, 2, 1, 2, 1, 1, 1, 2, 1, 1,
  1, 1, 1, 2, 1, 1, 1, 1, 1, 1, 1, 2, 1, 1, 1,
  1, 1, 2, 1, 1, 1, 2, 1, 2, 1, 1, 1, 2, 1, 1,
  1, 3, 1, 1, 1, 3, 1, 1, 1, 3, 1, 1, 1, 3, 1,
  1, 1, 1, 1, 1, 1, 1, 1, 1, 1, 1, 1, 1, 1, 1,
  2, 1, 1, 1, 1, 1, 1, 2, 1, 1, 1, 1, 1, 1, 2,
  1, 1, 1, 1, 1, 1, 2, 1, 2, 1, 1, 1, 1, 1, 1,
  1, 1, 1, 1, 1, 3, 1, 1, 1, 3, 1, 1, 1, 1, 1,
  1, 1, 1, 2, 1, 1, 1, 1, 1, 1, 1, 2, 1, 1, 1]

/-- Word multiplier table of the standard board (225 entries). -/
def WORD_MULTIPLIER_SET : List Nat := [
  3, 1, 1, 1, 1, 1, 1, 3, 1, 1, 1, 1, 1, 1, 3,
  1, 2, 1, 1, 1, 1, 1, 1, 1, 1, 1, 1, 1, 2, 1,
  1, 1, 2, 1, 1, 1, 1, 1, 1, 1, 1, 1, 2, 1, 1,
  1, 1, 1, 2, 1, 1, 1, 1, 1, 1, 1, 2, 1, 1, 1,
  1, 1, 1, 1, 2, 1, 1, 1, 1, 1, 2, 1, 1, 1, 1,
  1, 1, 1, 1, 1, 1, 1, 1, 1, 1, 1, 1, 1, 1, 1,
  1, 1, 1, 1, 1, 1, 1, 1, 1, 1, 1, 1, 1, 1, 1,
  3, 1, 1, 1, 1, 1, 1, 2, 1, 1, 1, 1, 1, 1, 3,
  1, 1, 1, 1, 1, 1, 1, 1, 1, 1, 1, 1, 1, 1, 1,
  1, 1, 1, 1, 1, 1, 1, 1, 1, 1, 1, 1, 1, 1, 1,
  1, 1, 1, 1, 2, 1, 1, 1, 1, 1, 2, 1, 1, 1, 1,
  1, 1, 1, 2, 1, 1, 1, 1, 1, 1, 1, 2, 1, 1, 1,
  1, 1, 2, 1, 1, 1, 1, 1, 1, 1, 1, 1, 2, 1, 1,
  1, 2, 1, 1, 1, 1, 1, 1, 1, 1, 1, 1, 1, 2, 1,
  3, 1, 1, 1, 1, 1, 1, 3, 1, 1, 1, 1, 1, 1, 3]

/-- Board from scrabble.py: flat 225-cell letter array (space = empty), flat
effective-value array, the set of placed words, the position-to-words index
and the move counter.  The Python set and dict are embedded as lists. -/
structure Board where
  board : List Char
  board_values : List Nat
  word_set : List Word
  position_to_words : List (Position × List Word)
  nb_moves : Nat
deriving DecidableEq, Repr

/-- Empty board of `Board.__init__`. -/
def Board.new : Board :=
  ⟨List.replicate 225 ' ', List.replicate 225 0, [], [], 0⟩

/-- Mirrors `Board.get_position_content`. -/
def Board.get_position_content (b : Board) (p : Position) : Char :=
  b.board.getD (posIdx p) ' '

/-- Append a word to the index list of a position (`position_to_words`
defaulting to an empty list on a missing key, then `append`). -/
def assocAppend (ptw : List (Position × List Word)) (p : Position) (w : Word) :
    List (Position × List Word) :=
  if (ptw.lookup p).isSome then
    ptw.map (fun e => if e.1 = p then (e.1, e.2 ++ [w]) else e)
  else ptw ++ [(p, [w])]

/-- Remove a word from the index list of a position (Python
`position_to_words[position].remove(w)`; on a missing key Python would raise,
which never happens on a consistent board, and the embedding is a no-op). -/
def assocRemove (ptw : List (Position × List Word)) (p : Position) (w : Word) :
    List (Position × List Word) :=
  ptw.map (fun e => if e.1 = p then (e.1, e.2.erase w) else e)

/-- First phase of `Board.put_on_board`: drop every already placed word whose
positions are contained in the new word, from both the word set and the
position index. -/
def removeSubsetWords (b : Board) (word : Word) : Board :=
  let doomed := b.word_set.filter (fun wsub => word.is_subset wsub)
  { b with
    word_set := b.word_set.filter (fun wsub => !(word.is_subset wsub)),
    position_to_words := doomed.foldl
      (fun ptw w => w.positionsList.foldl (fun acc p => assocRemove acc p w) ptw)
      b.position_to_words }

/-- Cells of a word as (offset, letter, position) triples, mirroring
`enumerate(zip(word, word.positions()))`. -/
def wordCells (w : Word) : List (Nat × Char × Position) :=
  (List.range w.text.length).map (fun i => (i, w.text.getD i ' ', w.posAt i))

/-- Letter-placement loop of `Board.put_on_board`, one iteration per cell of
the word: `_assign_letter` either reuses an identical letter, writes into an
empty cell (value 0 for a joker), or raises `BoardCoordinateAlreadyOccupied`
(embedded as `none`, returning the state mutated so far). -/
def putLoop (word : Word) (joker_index_set : List Nat) :
    Board → List Char → List (Nat × Char × Position) → Board × Option (List Char)
  | b, acc, [] => (b, some acc)
  | b, acc, (i, letter, pos) :: rest =>
    let idx := posIdx pos
    let cell := b.board.getD idx ' '
    if cell = letter then
      putLoop word joker_index_set
        { b with position_to_words := assocAppend b.position_to_words pos word } acc rest
    else if cell = ' ' then
      putLoop word joker_index_set
        { b with
          board := b.board.set idx letter,
          board_values := b.board_values.set idx
            (if i ∈ joker_index_set then 0 else character_value letter),
          position_to_words := assocAppend b.position_to_words pos word }
        (acc ++ [letter]) rest
    else (b, none)

/-- Embedding of `Board.put_on_board`.  Returns the possibly mutated board
together with `some letter_from_rack_list` on success and `none` when
`BoardCoordinateAlreadyOccupied` is raised (in which case the word-set
addition and the move-counter increment are never reached). -/
def put_on_board (b : Board) (word : Word) (is_main_word : Bool)
    (joker_set : List JokerTuple) : Board × Option (List Char) :=
  let b1 := removeSubsetWords b word
  let ji := joker_set.map (fun j => j.index)
  match putLoop word ji b1 [] (wordCells word) with
  | (b2, none) => (b2, none)
  | (b2, some lst) =>
    ({ b2 with
        word_set := if word ∈ b2.word_set then b2.word_set else b2.word_set ++ [word],
        nb_moves := if is_main_word then b2.nb_moves + 1 else b2.nb_moves },
     some lst)

/-- Accumulator loop of `Board.compute_word_value`: (value, word coefficient,
number of letters not yet on board). -/
def cwvLoop (b : Board) (joker_index_set : List Nat) :
    List (Nat × Char × Position) → Nat × Nat × Nat → Nat × Nat × Nat
  | [], acc => acc
  | (i, letter, pos) :: rest, (value, coeff, nb) =>
    let idx := posIdx pos
    if b.board.getD idx ' ' ≠ ' ' then
      cwvLoop b joker_index_set rest (value + b.board_values.getD idx 0, coeff, nb - 1)
    else
      cwvLoop b joker_index_set rest
        (if i ∈ joker_index_set then value
         else value + character_value letter * LETTER_MULTIPLIER_SET.getD idx 1,
         if 1 < WORD_MULTIPLIER_SET.getD idx 1 then coeff * WORD_MULTIPLIER_SET.getD idx 1
         else coeff,
         nb)

/-- Embedding of `Board.compute_word_value` (main-word score, called before
the word is put on the board). -/
def compute_word_value (b : Board) (word : Word) (joker_set : List JokerTuple) : Nat :=
  let ji := joker_set.map (fun j => j.index)
  let r := cwvLoop b ji (wordCells word) (0, 1, word.text.length)
  let v := r.1 * r.2.1
  if 7 ≤ r.2.2 then v + 50 else v

/-- Accumulator loop of `Board.compute_cross_word_value`: (value, word
coefficient). -/
def ccwvLoop (b : Board) (k : Nat) (joker_at_crossing : Bool) :
    List (Nat × Char × Position) → Nat × Nat → Nat × Nat
  | [], acc => acc
  | (i, letter, pos) :: rest, (value, coeff) =>
    let idx := posIdx pos
    if i = k then
      ccwvLoop b k joker_at_crossing rest
        (if joker_at_crossing then value
         else value + character_value letter * LETTER_MULTIPLIER_SET.getD idx 1,
         if coeff < WORD_MULTIPLIER_SET.getD idx 1 then coeff * WORD_MULTIPLIER_SET.getD idx 1
         else coeff)
    else
      ccwvLoop b k joker_at_crossing rest (value + b.board_values.getD idx 0, coeff)

/-- Embedding of `Board.compute_cross_word_value`. -/
def compute_cross_word_value (b : Board) (cw : CrossWord) (joker_at_crossing : Bool) : Nat :=
  let r := ccwvLoop b cw.index_of_main_word_line joker_at_crossing (wordCells cw.word) (0, 1)
  r.1 * r.2

/-- Solution from scrabble.py: main word, cross words, jokers, and the value
computed by `Solution.__init__` (score is set equal to value). -/
structure Solution where
  main_word : Word
  cross_word_list : List CrossWord
  joker_set : List JokerTuple
  value : Nat
  score : Nat
deriving DecidableEq, Repr

/-- Embedding of `Solution.__init__` in its normal (not from-record) mode:
value is the main word value plus one cross word value per cross word, where
a cross word scores with `joker_at_crossing` when the intersection offset in
the main word is a joker offset. -/
def mkSolution (b : Board) (main_word : Word) (cross_word_list : List CrossWord)
    (joker_set : List JokerTuple) : Solution :=
  let joker_index_list := joker_set.map (fun j => j.index)
  let v := cross_word_list.foldl
    (fun acc cw =>
      acc + compute_cross_word_value b cw
        (decide (main_word.intersection_index cw.word ∈ joker_index_list)))
    (compute_word_value b main_word joker_set)
  ⟨main_word, cross_word_list, joker_set, v, v⟩

/-- Line from scrabble.py: a full row or column, identified by direction and
index. -/
structure Line where
  direction : Direction
  line_index : Nat
deriving DecidableEq, Repr

/-- Mirrors `Line.index_2_pos`. -/
def Line.index_2_pos (l : Line) (index : Nat) : Position :=
  if l.direction.is_accross then ⟨l.line_index, index⟩ else ⟨index, l.line_index⟩

/-- Mirrors `Line.pos_2_index`. -/
def Line.pos_2_index (l : Line) (pos : Position) : Nat :=
  if l.direction.is_accross then pos.col else pos.row

/-- The 15 positions of a line in order, mirroring the default iterator. -/
def Line.positionsList (l : Line) : List Position :=
  (List.range 15).map l.index_2_pos

/-- Previous positions of `Position.prev` in the given direction, nearest
first, stopping at the board edge. -/
def prevPositions (d : Direction) (p : Position) : List Position :=
  if d.is_down then (List.range p.row).reverse.map (fun r => (⟨r, p.col⟩ : Position))
  else (List.range p.col).reverse.map (fun c => (⟨p.row, c⟩ : Position))

/-- Next positions of `Position.next` in the given direction, nearest first,
stopping at the board edge. -/
def nextPositions (d : Direction) (p : Position) : List Position :=
  if d.is_down then (List.range (14 - p.row)).map (fun i => (⟨p.row + 1 + i, p.col⟩ : Position))
  else (List.range (14 - p.col)).map (fun i => (⟨p.row, p.col + 1 + i⟩ : Position))

/-- Embedding of `Board.adjacent_letters_2_line`: the non-empty cells
directly on the lower and higher side of the line (sides at the board edge
are skipped); the result flattens the two lists lower side first, the order
in which `build_mask_for_line` consumes them. -/
def adjacent_letters_2_line (b : Board) (line : Line) : List Position :=
  let lower :=
    if line.line_index = 0 then []
    else line.positionsList.filterMap (fun p =>
      let q : Position :=
        if line.direction.is_accross then ⟨p.row - 1, p.col⟩ else ⟨p.row, p.col - 1⟩
      if b.get_position_content q ≠ ' ' then some q else none)
  let higher :=
    if line.line_index = 14 then []
    else line.positionsList.filterMap (fun p =>
      let q : Position :=
        if line.direction.is_accross then ⟨p.row + 1, p.col⟩ else ⟨p.row, p.col + 1⟩
      if b.get_position_content q ≠ ' ' then some q else none)
  lower ++ higher

/-- Perpendicular scan of `build_mask_for_line`: from an adjacent filled
position, walk outwards in both orthogonal directions, keeping cells that are
filled or lie on the line itself, to form the would-be cross-word span. -/
def crossScan (b : Board) (line : Line) (maskPositions : List Position)
    (adj : Position) : List Position :=
  let ortho := line.direction.ortho
  let before := (prevPositions ortho adj).takeWhile
    (fun p => decide (b.get_position_content p ≠ ' ' ∨ p ∈ maskPositions))
  let after := (nextPositions ortho adj).takeWhile
    (fun p => decide (b.get_position_content p ≠ ' ' ∨ p ∈ maskPositions))
  before.reverse ++ [adj] ++ after

/-- Embedding of `Board.build_mask_for_line`: start from the cell contents
(letter or empty dict), then for every adjacent filled cell build the
cross-word span; spans with no gap are existing words and are skipped; spans
with a gap replace the gap's mask item by the completion dict, or by the dead
marker when no letter completes them.  An `AssertionError` raised by
`possible_word_set_from_string` propagates out of the loop (`none`). -/
def build_mask_for_line (t : Trie) (b : Board) (line : Line) :
    Option (List MaskItem) :=
  let maskPositions := line.positionsList
  let mask0 : List MaskItem := maskPositions.map (fun p =>
    let c := b.get_position_content p
    if c = ' ' then MaskItem.dict [] else MaskItem.letter c)
  (adjacent_letters_2_line b line).foldl (fun acc adj =>
    match acc with
    | none => none
    | some mask =>
      let s := (crossScan b line maskPositions adj).map b.get_position_content
      if ' ' ∈ s then
        match possible_word_set_from_string t s with
        | none => none
        | some word_dict =>
          let mask_index := if line.direction.is_accross then adj.col else adj.row
          some (mask.set mask_index
            (if word_dict.isEmpty then MaskItem.dead else MaskItem.dict word_dict))
      else some mask) (some mask0)

/-- Embedding of `Board.get_anchor_positions_from_line`: empty cells directly
left of (or above) a cell holding a letter. -/
def get_anchor_positions_from_line (line : Line) (mask : List MaskItem) : List Position :=
  (List.range 15).filterMap (fun i =>
    if i ≠ 14 ∧ (mask.getD i .dead).has_no_letter = true
        ∧ (mask.getD (i + 1) .dead).has_letter = true then
      some (line.index_2_pos i)
    else none)

/-- AnchorTuple from scrabble.py: anchor position and the index at which the
left mask starts. -/
structure AnchorTuple where
  pos : Position
  left_index : Nat
deriving DecidableEq, Repr

/-- Reversed scan of `build_left_masks_list` computing
`start_left_mask_index`: stop after 6 usable cells (rack cap), or right after
a letter or dead cell, or at the start of the mask. -/
def startLeftIndex (total : Nat) : List MaskItem → Nat → Nat
  | [], _ => 0
  | item :: rest, i =>
    if i = 5 ∧ item.is_usable = true then total - 6
    else if item.has_letter = true ∨ item.is_not_usable = true then total - i + 1
    else if i = total - 1 then 0
    else startLeftIndex total rest (i + 1)

/-- Embedding of `Board.build_left_masks_list`: the anchor tuples scanned for
words.  A letter in the first cell adds the tuple (position 0, 0); a dead
anchor or a letter right before the anchor yields the single tuple starting
past the anchor; a run of usable cells before the anchor yields one tuple per
possible start index. -/
def build_left_masks_list (line : Line) (mask : List MaskItem) : List AnchorTuple :=
  let anchor_position_list := get_anchor_positions_from_line line mask
  let init : List AnchorTuple :=
    if (mask.getD 0 .dead).has_letter then [⟨line.index_2_pos 0, 0⟩] else []
  init ++ anchor_position_list.flatMap (fun anchor_position =>
    let anchor_index := line.pos_2_index anchor_position
    if (mask.getD anchor_index .dead).is_not_usable then
      [⟨anchor_position, anchor_index + 1⟩]
    else
      let sub_mask := mask.take anchor_index
      if sub_mask.isEmpty then []
      else if (sub_mask.getLast?.getD .dead).has_letter then
        [⟨anchor_position, anchor_index + 1⟩]
      else if (sub_mask.getLast?.getD .dead).is_usable then
        let start := startLeftIndex sub_mask.length sub_mask.reverse 0
        (List.range (anchor_index + 2 - start)).map
          (fun i => (⟨anchor_position, start + i⟩ : AnchorTuple))
      else [])

/-- While loop of `get_potential_solutions_for_line` extending `min_length`
over the contiguous letters right of the anchor (fuel-based embedding of the
bounded while loop). -/
def extendMinLength (m2s : List MaskItem) : Nat → Nat → Nat
  | 0, ml => ml
  | fuel + 1, ml =>
    if (m2s.getD ml .dead).has_letter = true ∧ ml < m2s.length - 1 then
      extendMinLength m2s fuel (ml + 1)
    else ml

/-- Cross-word derivation of `get_potential_solutions_for_line`: for every
offset of the candidate word whose mask item is a cross-word dict containing
the word's letter, record the cross word at its board position. -/
def crossWordsFor (line : Line) (left_index : Nat) (mask_2_scan : List MaskItem)
    (word : List Char) : List CrossWord :=
  (word.zip mask_2_scan).enum.filterMap (fun x =>
    match x.2.2 with
    | .dict m =>
      if m.isEmpty then none
      else
        match m.lookup x.2.1 with
        | some wc =>
          let row := if line.direction.is_accross then line.line_index - wc.index
                     else left_index + x.1
          let col := if line.direction.is_accross then left_index + x.1
                     else line.line_index - wc.index
          some ⟨⟨wc.word_str, line.direction.ortho, ⟨row, col⟩⟩, wc.index⟩
        | none => none
    | _ => none)

/-- Kind of cell in the word pattern used for joker detection (" ", "board"
or "rack" in the Python code). -/
inductive PatKind where
  | blankP
  | boardP
  | rackP
deriving DecidableEq, Repr

/-- Greedy rack assignment of the joker-detection loop: board cells consume
nothing; other cells consume the matching tile when available, otherwise the
pattern entry stays blank (to become a joker). -/
def greedyAssign : List (PatKind × Char) → List Char → List (PatKind × Char)
  | [], _ => []
  | (p, c) :: rest, tiles =>
    match p with
    | .boardP => (PatKind.boardP, c) :: greedyAssign rest tiles
    | _ =>
      if c ∈ tiles then (PatKind.rackP, c) :: greedyAssign rest (tiles.erase c)
      else (p, c) :: greedyAssign rest tiles

/-- Joker set of a candidate word: positions whose pattern entry is still
blank after the greedy rack assignment, with their letters. -/
def jokersFrom (pattern0 : List PatKind) (word : List Char) (tiles : List Char) :
    List JokerTuple :=
  (greedyAssign (pattern0.zip word) tiles).enum.filterMap (fun x =>
    if x.2.1 = PatKind.blankP then some (⟨x.1, x.2.2⟩ : JokerTuple) else none)

/-- Candidate loop of `get_potential_solutions_for_line` over the words
returned by the masked search.  The Python loop `break`s (not `continue`s)
when the cell following a word holds a letter or is dead, so every later
word of the iteration is dropped too. -/
def processWords (b : Board) (line : Line) (anchor_left : Nat) (mask : List MaskItem)
    (mask_2_scan : List MaskItem) (cross_word_flag : Bool) (tiles : List Char) :
    List (List Char) → List Solution
  | [] => []
  | word :: rest =>
    if anchor_left + word.length = 15
        ∨ (mask.getD (anchor_left + word.length) .dead).is_usable = true then
      let main_word : Word := ⟨word, line.direction, line.index_2_pos anchor_left⟩
      let cross_word_list :=
        if cross_word_flag then crossWordsFor line anchor_left mask_2_scan word else []
      let pattern0 := (List.range word.length).map (fun i =>
        if (mask_2_scan.getD i (.dict [])).has_letter then PatKind.boardP else PatKind.blankP)
      let joker_set := jokersFrom pattern0 word tiles
      (if main_word ∈ b.word_set then []
       else [mkSolution b main_word cross_word_list joker_set]) ++
        processWords b line anchor_left mask mask_2_scan cross_word_flag tiles rest
    else []

/-- Raise-propagating flat map over a loop body: the generator loops raise
any `AssertionError` of their body (`none`) out of the whole loop, and
otherwise concatenate the per-iteration solution lists in order. -/
def optFlatMap {α β : Type _} (f : α → Option (List β)) : List α → Option (List β)
  | [] => some []
  | a :: rest =>
    match f a with
    | none => none
    | some bs =>
      match optFlatMap f rest with
      | none => none
      | some more => some (bs ++ more)

/-- Embedding of `Board.get_potential_solutions_for_line`.  The Python code
iterates over the set `potential_words`, whose iteration order is
implementation defined; the parameter `ord` supplies that order (it is given
the collected word list and returns the list in iteration order).  An
`AssertionError` raised while building the mask or by the depth assert of
the masked search at any anchor propagates out (`none`). -/
def get_potential_solutions_for_line (t : Trie)
    (ord : List (List Char) → List (List Char)) (b : Board) (line : Line)
    (rackTiles : List Char) : Option (List Solution) :=
  match build_mask_for_line t b line with
  | none => none
  | some mask =>
    optFlatMap (fun anchor_item =>
      let mask_2_scan := mask.drop anchor_item.left_index
      let min_length := extendMinLength mask_2_scan mask_2_scan.length
        (line.pos_2_index anchor_item.pos + 1 - anchor_item.left_index)
      match possible_words_for_mask_with_rack t mask_2_scan rackTiles min_length with
      | none => none
      | some potential_words =>
        let cross_word_flag :=
          !potential_words.isEmpty && mask_2_scan.any (fun m => m.is_cross_word)
        some (processWords b line anchor_item.left_index mask mask_2_scan
          cross_word_flag rackTiles (ord potential_words)))
      (build_left_masks_list line mask)

/-- Per-word Solution construction of `get_potential_solutions_for_first_play`:
the mask is all-open, so the board-pattern pass never marks a cell (its
`isinstance(item, str)` test is false for every `MaskItem`), and the word is
placed across at the board center. -/
def firstPlaySolution (b : Board) (rackTiles : List Char) (w : List Char) : Solution :=
  mkSolution b ⟨w, .accross, ⟨7, 7⟩⟩ []
    (jokersFrom (List.replicate w.length PatKind.blankP) w rackTiles)

/-- Embedding of `Board.get_potential_solutions_for_first_play`: the masked
search is called with a 7-cell all-open mask and minimum length 1, and every
returned word becomes a Solution across at (7, 7).  The function asserts a
full rack of 7 tiles (scrabble.py:1696), and the depth assert of the masked
search can also raise; `none` embeds the `AssertionError`. -/
def get_potential_solutions_for_first_play (t : Trie) (b : Board)
    (rackTiles : List Char) : Option (List Solution) :=
  if rackTiles.length = 7 then
    match possible_words_for_mask_with_rack t
        (List.replicate 7 (MaskItem.dict ([] : List (Char × WordCouple))))
        rackTiles 1 with
    | none => none
    | some ws => some (ws.map (firstPlaySolution b rackTiles))
  else none

/-- Python string comparison on uppercase words (code-point lexicographic,
a strict prefix sorting before its extensions), as a boolean less-or-equal. -/
def lexLeB : List Char → List Char → Bool
  | [], _ => true
  | _ :: _, [] => false
  | a :: as, b :: bs => if a < b then true else if a = b then lexLeB as bs else false

/-- Sort key comparison of `get_sorted_list_of_solutions_for_rack`: the Python
key is the tuple `(solution, main_word.text)` where solutions compare by
score, so the effective order is by score ascending then word text. -/
def solutionLeB (s1 s2 : Solution) : Bool :=
  if s1.score < s2.score then true
  else if s1.score = s2.score then lexLeB s1.main_word.text s2.main_word.text
  else false

/-- The sort key order as a relation. -/
def solutionLe (s1 s2 : Solution) : Prop := solutionLeB s1 s2 = true

instance solutionLe.decRel : DecidableRel solutionLe :=
  fun s1 s2 => inferInstanceAs (Decidable (solutionLeB s1 s2 = true))

/-- Candidate list of `Board.get_sorted_list_of_solutions_for_rack` (its
`solution_list` variable before sorting): first play when no move has been
made, otherwise all 30 lines in order, any `AssertionError` propagating out
of the line loop (`none`). -/
def candidate_solutions (t : Trie) (ord : List (List Char) → List (List Char))
    (b : Board) (rackTiles : List Char) : Option (List Solution) :=
  if b.nb_moves = 0 then get_potential_solutions_for_first_play t b rackTiles
  else optFlatMap
    (fun line => get_potential_solutions_for_line t ord b line rackTiles)
    ((List.range 15).flatMap (fun i => [(⟨.accross, i⟩ : Line), ⟨.down, i⟩]))

/-- Embedding of `Board.get_sorted_list_of_solutions_for_rack`: the candidate
list sorted by the (score, main word text) key.  The outer `none` embeds a
propagated `AssertionError`; the inner `none` embeds the Python `False`
returned when no solution exists.  Python's `list.sort` is a stable sort
under the key order, and a stable sort's output is uniquely determined by
the key order, so the embedding uses insertion sort (also stable). -/
def get_sorted_list_of_solutions_for_rack (t : Trie)
    (ord : List (List Char) → List (List Char)) (b : Board)
    (rackTiles : List Char) : Option (Option (List Solution)) :=
  match candidate_solutions t ord b rackTiles with
  | none => none
  | some sl =>
    some (if sl.isEmpty then none else some (sl.insertionSort solutionLe))

/-- Embedding of `Board.get_best_solution_for_rack`: the last element of the
sorted solution list, with the raise (outer `none`) and no-solution (inner
`none`) cases propagated. -/
def get_best_solution_for_rack (t : Trie)
    (ord : List (List Char) → List (List Char)) (b : Board)
    (rackTiles : List Char) : Option (Option Solution) :=
  match get_sorted_list_of_solutions_for_rack t ord b rackTiles with
  | none => none
  | some none => some none
  | some (some l) => some (if l.isEmpty then none else l.getLast?)

/-- Exceptions of scrabble.py relevant to the embedded game operations. -/
inductive ScrabbleError where
  | boardCoordinateAlreadyOccupied
  | changeRackLettersNotAllowed
deriving DecidableEq, Repr

/-- Per-player entry of `Game.player_dict` (the fields used by the embedded
operations). -/
structure PlayerState where
  score : Nat
  rack : List Char
  nb_skip_in_sequence : Nat
deriving DecidableEq, Repr

/-- Entry of `Game.play_list_history` (Python formats row and column as
display strings; the embedding keeps the shifted row number and the column
letter). -/
structure PlayHistoryEntry where
  player : Option (List Char)
  word_text : List Char
  row : Nat
  col : Char
  direction_code : Char
  value : Nat
deriving DecidableEq, Repr

/-- Game state touched by `_play` and `play_manual`: the bag (only its
content matters here), the board and the play history. -/
structure GameState where
  bag : List Char
  board : Board
  play_list_history : List PlayHistoryEntry
deriving DecidableEq, Repr

/-- PlayReturnTuple from scrabble.py. -/
inductive PlayReturn where
  | played (letter_from_rack_list : List Char) (solution : Solution)
  | skipReturn
  | changeReturn
deriving DecidableEq, Repr

/-- Play instruction of `Game.play_manual`: the PLAY/SKIP/CHANGE codes, with
the solution required exactly for PLAY (the Python asserts enforce this). -/
inductive PlayInstruction where
  | play (solution : Solution)
  | skip
  | change
deriving DecidableEq, Repr

/-- Cross-word placement loop of `Game._play`. -/
def putCrossWords (b : Board) : List CrossWord → Except ScrabbleError Board
  | [] => .ok b
  | cw :: rest =>
    match put_on_board b cw.word false [] with
    | (_, none) => .error .boardCoordinateAlreadyOccupied
    | (b', some _) => putCrossWords b' rest

/-- Embedding of `Game._play`: place the main word (counting the move), swap
the joker letters of the returned rack letters for blanks, place the cross
words (not counting moves), credit the score and record the play. -/
def Game_play (g : GameState) (ps : PlayerState) (solution : Solution)
    (player : Option (List Char)) :
    Except ScrabbleError (GameState × PlayerState × PlayReturn) :=
  let ps1 := { ps with nb_skip_in_sequence := 0 }
  match put_on_board g.board solution.main_word true solution.joker_set with
  | (_, none) => .error .boardCoordinateAlreadyOccupied
  | (board1, some letters0) =>
    let letters := solution.joker_set.foldl
      (fun acc jt => acc.erase jt.letter ++ [' ']) letters0
    match putCrossWords board1 solution.cross_word_list with
    | .error e => .error e
    | .ok board2 =>
      let entry : PlayHistoryEntry :=
        ⟨player, solution.main_word.text, solution.main_word.origin.row + 1,
          Char.ofNat (solution.main_word.origin.col + 65),
          if solution.main_word.direction.is_accross then 'H' else 'V',
          solution.value⟩
      let g' : GameState :=
        { g with board := board2, play_list_history := g.play_list_history ++ [entry] }
      .ok (g', { ps1 with score := ps1.score + solution.value }, .played letters solution)

/-- Embedding of `Game.play_manual`: a PLAY instruction delegates to `_play`,
SKIP bumps the skip counter, and CHANGE succeeds exactly when the rack holds
7 tiles and the bag at least 7, raising `ChangeRackLettersNotAllowed`
otherwise. -/
def play_manual (g : GameState) (ps : PlayerState) (instr : PlayInstruction)
    (player : Option (List Char)) :
    Except ScrabbleError (GameState × PlayerState × PlayReturn) :=
  match instr with
  | .play solution => Game_play g ps solution player
  | .skip => .ok (g, { ps with nb_skip_in_sequence := ps.nb_skip_in_sequence + 1 },
      .skipReturn)
  | .change =>
    if ps.rack.length = 7 ∧ 7 ≤ g.bag.length then .ok (g, ps, .changeReturn)
    else .error .changeRackLettersNotAllowed

/-!
Predicates used to state the claims about the masked rack search.
-/

/-- Compatibility of one word letter with one mask item: a board letter must
be matched exactly, a cross-word dict must either be open (empty) or contain
the letter as a key, and a dead cell admits no letter. -/
def itemOkB : MaskItem → Char → Bool
  | .letter a, c => decide (c = a)
  | .dict m, c => m.isEmpty || (m.lookup c).isSome
  | .dead, _ => false

/-- Positional compatibility of a word with a mask prefix. -/
def maskOkB : List MaskItem → List Char → Bool
  | _, [] => true
  | [], _ :: _ => false
  | item :: ms, c :: cs => itemOkB item c && maskOkB ms cs

/-- Letters of the word standing at positions whose mask item is not a board
letter: these are the letters that must come from the rack. -/
def nonBoardLetters : List MaskItem → List Char → List Char
  | _, [] => []
  | [], _ :: _ => []
  | .letter _ :: ms, _ :: cs => nonBoardLetters ms cs
  | _ :: ms, c :: cs => c :: nonBoardLetters ms cs

/-- Drawability of a letter list from a tile list: each letter consumes
either a matching tile or a blank tile. -/
def canDraw : List Char → List Char → Bool
  | [], _ => true
  | c :: cs, tiles =>
    (decide (c ∈ tiles) && canDraw cs (tiles.erase c)) ||
      (decide (' ' ∈ tiles) && canDraw cs (tiles.erase ' '))

/-- Drawing relation with explicit remainder: `Draws ls r r'` holds when the
letters `ls` can be drawn in order from the tiles `r` (each via the matching
tile or a blank), leaving exactly the tiles `r'`. -/
inductive Draws : List Char → List Char → List Char → Prop
  | nil (r : List Char) : Draws [] r r
  | letter {c : Char} {cs r r' : List Char} (h : c ∈ r)
      (hd : Draws cs (r.erase c) r') : Draws (c :: cs) r r'
  | blank {c : Char} {cs r r' : List Char} (h : ' ' ∈ r)
      (hd : Draws cs (r.erase ' ') r') : Draws (c :: cs) r r'

lemma Draws.toCanDraw {ls r r' : List Char} (h : Draws ls r r') :
    canDraw ls r = true := by
  induction h with
  | nil => rfl
  | letter hmem _ ih => simp [canDraw, hmem, ih]
  | blank hmem _ ih => simp [canDraw, hmem, ih]

lemma Draws.append_letter {ls r r' : List Char} (h : Draws ls r r') {c : Char}
    (hc : c ∈ r') : Draws (ls ++ [c]) r (r'.erase c) := by
  induction h with
  | nil => exact .letter hc (.nil _)
  | letter hmem _ ih => exact .letter hmem (ih hc)
  | blank hmem _ ih => exact .blank hmem (ih hc)

lemma Draws.append_blank {ls r r' : List Char} (h : Draws ls r r') (c : Char)
    (hb : ' ' ∈ r') : Draws (ls ++ [c]) r (r'.erase ' ') := by
  induction h with
  | nil => exact .blank hb (.nil _)
  | letter hmem _ ih => exact .letter hmem (ih hb)
  | blank hmem _ ih => exact .blank hmem (ih hb)

/-! Helper lemmas about `possible_word_set_from_string` (claim C7). -/

lemma upperAlphabet_isUpperAZ : ∀ c ∈ upperAlphabet, isUpperAZ c = true := by
  decide

lemma substituteBlank_valid_some (t : Trie) (s : List Char) (letter : Char)
    (h4 : 2 ≤ s.length) (h2 : s.length ≤ 15)
    (h3 : ∀ c ∈ s, c = ' ' ∨ c ∈ upperAlphabet) (hl : letter ∈ upperAlphabet) :
    ∃ bv, this_is_a_valid_word t (substituteBlank s letter) = some bv := by
  have hcond : 1 < (substituteBlank s letter).length ∧
      (substituteBlank s letter).length ≤ 15 ∧
      (substituteBlank s letter).all isUpperAZ := by
    refine ⟨?_, ?_, ?_⟩
    · rw [substituteBlank, List.length_map]; omega
    · rw [substituteBlank, List.length_map]; exact h2
    · rw [substituteBlank, List.all_eq_true]
      intro x hx
      rw [List.mem_map] at hx
      obtain ⟨c, hc, rfl⟩ := hx
      by_cases hcb : c = ' '
      · rw [if_pos hcb]; exact upperAlphabet_isUpperAZ letter hl
      · rw [if_neg hcb]
        rcases h3 c hc with h | h
        · exact absurd h hcb
        · exact upperAlphabet_isUpperAZ c h
  refine ⟨(match walk t (substituteBlank s letter) with
    | some tEnd => Trie.is_termination tEnd
    | none => false), ?_⟩
  unfold this_is_a_valid_word
  rw [if_pos hcond]

lemma pwsLoop_eq (t : Trie) (s : List Char)
    (hsome : ∀ letter ∈ upperAlphabet,
      ∃ bv, this_is_a_valid_word t (substituteBlank s letter) = some bv) :
    ∀ l : List Char, (∀ c ∈ l, c ∈ upperAlphabet) →
      pwsLoop t s l = some (l.filterMap (fun letter =>
        if this_is_a_valid_word t (substituteBlank s letter) == some true then
          some (letter, (⟨blankIndex s, substituteBlank s letter⟩ : WordCouple))
        else none)) := by
  intro l
  induction l with
  | nil => intro _; rfl
  | cons a rest ih =>
    intro hmem
    obtain ⟨bv, hbv⟩ := hsome a (hmem a (List.mem_cons_self a rest))
    have hrest := ih (fun c hc => hmem c (List.mem_cons_of_mem a hc))
    rw [pwsLoop, hbv, hrest, List.filterMap_cons, hbv]
    cases bv <;> rfl

lemma completion_keys (t : Trie) (s : List Char) : ∀ l : List Char,
    ((l.filterMap (fun letter =>
      if this_is_a_valid_word t (substituteBlank s letter) == some true then
        some (letter, (⟨blankIndex s, substituteBlank s letter⟩ : WordCouple))
      else none)).map Prod.fst)
      = l.filter (fun c => this_is_a_valid_word t (substituteBlank s c) == some true) := by
  intro l
  induction l with
  | nil => rfl
  | cons a as ih =>
    by_cases h : (this_is_a_valid_word t (substituteBlank s a) == some true) = true
    · rw [@List.filterMap_cons_some Char (Char × WordCouple)
          (fun letter =>
            if this_is_a_valid_word t (substituteBlank s letter) == some true then
              some (letter, (⟨blankIndex s, substituteBlank s letter⟩ : WordCouple))
            else none) a as _ (if_pos h),
        List.map_cons, ih,
        @List.filter_cons_of_pos Char
          (fun c => this_is_a_valid_word t (substituteBlank s c) == some true)
          a as h]
    · rw [@List.filterMap_cons_none Char (Char × WordCouple)
          (fun letter =>
            if this_is_a_valid_word t (substituteBlank s letter) == some true then
              some (letter, (⟨blankIndex s, substituteBlank s letter⟩ : WordCouple))
            else none) a as (if_neg h),
        ih,
        @List.filter_cons_of_neg Char
          (fun c => this_is_a_valid_word t (substituteBlank s c) == some true)
          a as h]

lemma completion_values (t : Trie) (s : List Char) : ∀ (l : List Char)
    (p : Char × WordCouple),
    p ∈ (l.filterMap (fun letter =>
      if this_is_a_valid_word t (substituteBlank s letter) == some true then
        some (letter, (⟨blankIndex s, substituteBlank s letter⟩ : WordCouple))
      else none)) →
    p.2 = ⟨blankIndex s, substituteBlank s p.1⟩ := by
  intro l p hp
  rw [List.mem_filterMap] at hp
  obtain ⟨a, _, ha⟩ := hp
  by_cases h : (this_is_a_valid_word t (substituteBlank s a) == some true) = true
  · rw [if_pos h] at ha
    have he := Option.some.inj ha
    subst he
    rfl
  · rw [if_neg h] at ha
    cases ha

/-- C7 counterexample: the one-character pattern " " lies inside the claimed
domain (exactly one blank, length at most 15, every character a blank or an
uppercase letter), yet the completion does not return a map at all: the
first substituted candidate "A" violates the length assert of
`this_is_a_valid_word` (dictionary.py:221) and the call raises
`AssertionError`, embedded as `none` - here on the two-word lexicon AB,
ABA. -/
theorem completion_rejects_length_one_pattern :
    (([' '] : List Char).count ' ' = 1 ∧ ([' '] : List Char).length ≤ 15 ∧
      ∀ c ∈ ([' '] : List Char), c = ' ' ∨ c ∈ upperAlphabet) ∧
    possible_word_set_from_string
      (.node false [('A', .node false [('B', .node true [('A', .node true [])])])])
      [' '] = none := by
  decide

/-- C7 (amended): for a pattern of 2 to 15 characters, all uppercase letters
except exactly one space, the single-wildcard completion returns a map whose
keys are exactly the letters of A..Z whose substitution at the space yields a
word of the lexicon, whose value for each key is the pair of the wildcard
offset and the substituted word, and which is empty exactly when no letter
yields a word; on a one-character pattern the call raises instead of
returning a map. -/
theorem possible_word_set_from_string_spec (t : Trie) (s : List Char)
    (h1 : s.count ' ' = 1) (h2 : s.length ≤ 15) (h4 : 2 ≤ s.length)
    (h3 : ∀ c ∈ s, c = ' ' ∨ c ∈ upperAlphabet) :
    ∃ m, possible_word_set_from_string t s = some m ∧
      (m.map Prod.fst = upperAlphabet.filter
        (fun c => this_is_a_valid_word t (substituteBlank s c) == some true)) ∧
      (∀ p ∈ m, p.2 = ⟨blankIndex s, substituteBlank s p.1⟩) ∧
      (m = [] ↔ ∀ c ∈ upperAlphabet,
        this_is_a_valid_word t (substituteBlank s c) = some false) := by
  have hsome : ∀ letter ∈ upperAlphabet,
      ∃ bv, this_is_a_valid_word t (substituteBlank s letter) = some bv :=
    fun letter hl => substituteBlank_valid_some t s letter h4 h2 h3 hl
  have hguard : (s.all (fun c => isUpperAZ c || c == ' ')) ∧ s.length ≤ 15 ∧
      s.count ' ' = 1 := by
    refine ⟨?_, h2, h1⟩
    rw [List.all_eq_true]
    intro c hc
    rcases h3 c hc with h | h
    · subst h; rfl
    · rw [upperAlphabet_isUpperAZ c h]; rfl
  refine ⟨upperAlphabet.filterMap (fun letter =>
      if this_is_a_valid_word t (substituteBlank s letter) == some true then
        some (letter, (⟨blankIndex s, substituteBlank s letter⟩ : WordCouple))
      else none), ?_, completion_keys t s upperAlphabet,
      completion_values t s upperAlphabet, ?_⟩
  · unfold possible_word_set_from_string
    rw [if_pos hguard]
    exact pwsLoop_eq t s hsome upperAlphabet (fun c hc => hc)
  · constructor
    · intro h c hc
      have hk := completion_keys t s upperAlphabet
      rw [h] at hk
      simp only [List.map_nil] at hk
      have hcf := List.filter_eq_nil_iff.mp hk.symm c hc
      obtain ⟨bv, hbv⟩ := hsome c hc
      cases bv with
      | true => rw [hbv] at hcf; simp at hcf
      | false => exact hbv
    · intro h
      apply List.eq_nil_of_map_eq_nil (f := Prod.fst)
      rw [completion_keys t s upperAlphabet]
      apply List.filter_eq_nil_iff.mpr
      intro c hc
      rw [h c hc]
      simp

/-- Witness for the amended C7 on a concrete lexicon and pattern: the
two-word trie (AB, ABA) with the pattern "A " completes exactly to the
letter B. -/
theorem possible_word_set_from_string_spec_witness :
    ((['A', ' '] : List Char).count ' ' = 1 ∧ (['A', ' '] : List Char).length ≤ 15 ∧
      2 ≤ (['A', ' '] : List Char).length) ∧
    (∃ m, possible_word_set_from_string
        (.node false [('A', .node false [('B', .node true [('A', .node true [])])])])
        ['A', ' '] = some m ∧
      (m.map Prod.fst = upperAlphabet.filter
        (fun c => this_is_a_valid_word
          (.node false [('A', .node false [('B', .node true [('A', .node true [])])])])
          (substituteBlank ['A', ' '] c) == some true)) ∧
      (∀ p ∈ m, p.2 = ⟨blankIndex ['A', ' '], substituteBlank ['A', ' '] p.1⟩) ∧
      (m = [] ↔ ∀ c ∈ upperAlphabet,
        this_is_a_valid_word
          (.node false [('A', .node false [('B', .node true [('A', .node true [])])])])
          (substituteBlank ['A', ' '] c) = some false)) :=
  ⟨by decide,
    possible_word_set_from_string_spec
      (.node false [('A', .node false [('B', .node true [('A', .node true [])])])])
      ['A', ' '] (by decide) (by decide) (by decide) (by decide)⟩

/-! Claim C8: rack-tile exchange. -/

/-- C8: a CHANGE request through `play_manual` succeeds (returns the change
return code) exactly when the rack holds 7 tiles and the bag at least 7;
otherwise it raises `ChangeRackLettersNotAllowed`. -/
theorem exchange_allowed_iff (g : GameState) (ps : PlayerState)
    (player : Option (List Char)) :
    ((∃ r, play_manual g ps .change player = .ok r) ↔
      (ps.rack.length = 7 ∧ 7 ≤ g.bag.length)) ∧
    (¬(ps.rack.length = 7 ∧ 7 ≤ g.bag.length) →
      play_manual g ps .change player = .error .changeRackLettersNotAllowed) := by
  by_cases h : ps.rack.length = 7 ∧ 7 ≤ g.bag.length
  · constructor
    · simp [play_manual, h]
    · intro hc; exact absurd h hc
  · constructor
    · simp [play_manual, h]
    · intro _; simp [play_manual, h]

/-- Witness for C8 at a rack of size 6 (and a full bag): the exchange request
fails with `ChangeRackLettersNotAllowed`. -/
theorem exchange_allowed_iff_witness :
    play_manual ⟨List.replicate 86 'A', Board.new, []⟩
        ⟨0, ['A', 'B', 'C', 'D', 'E', 'F'], 0⟩ .change none
      = .error .changeRackLettersNotAllowed :=
  (exchange_allowed_iff ⟨List.replicate 86 'A', Board.new, []⟩
    ⟨0, ['A', 'B', 'C', 'D', 'E', 'F'], 0⟩ none).2 (by decide)

/-! Claim C10: move counter behaviour of `put_on_board`. -/

lemma putLoop_nb_moves (word : Word) (ji : List Nat) :
    ∀ (cells : List (Nat × Char × Position)) (b : Board) (acc : List Char),
      (putLoop word ji b acc cells).1.nb_moves = b.nb_moves := by
  intro cells
  induction cells with
  | nil => intro b acc; rfl
  | cons x rest ih =>
    intro b acc
    obtain ⟨i, letter, pos⟩ := x
    simp only [putLoop]
    split
    · rw [ih]
    · split
      · rw [ih]
      · rfl

lemma putLoop_word_set (word : Word) (ji : List Nat) :
    ∀ (cells : List (Nat × Char × Position)) (b : Board) (acc : List Char),
      (putLoop word ji b acc cells).1.word_set = b.word_set := by
  intro cells
  induction cells with
  | nil => intro b acc; rfl
  | cons x rest ih =>
    intro b acc
    obtain ⟨i, letter, pos⟩ := x
    simp only [putLoop]
    split
    · rw [ih]
    · split
      · rw [ih]
      · rfl

/-- C10: `put_on_board` with `is_main_word` true and false return the same
result and the same cell array, value array, word set and position index; the
false call never changes the move counter, and the true call increments it by
exactly 1 when the placement succeeds (and leaves it unchanged when the
placement raises). -/
theorem put_on_board_move_counter (b : Board) (w : Word) (js : List JokerTuple) :
    (put_on_board b w true js).2 = (put_on_board b w false js).2 ∧
    (put_on_board b w true js).1.board = (put_on_board b w false js).1.board ∧
    (put_on_board b w true js).1.board_values = (put_on_board b w false js).1.board_values ∧
    (put_on_board b w true js).1.word_set = (put_on_board b w false js).1.word_set ∧
    (put_on_board b w true js).1.position_to_words
      = (put_on_board b w false js).1.position_to_words ∧
    (put_on_board b w false js).1.nb_moves = b.nb_moves ∧
    ((put_on_board b w true js).2.isSome = true →
      (put_on_board b w true js).1.nb_moves = b.nb_moves + 1) ∧
    ((put_on_board b w true js).2 = none →
      (put_on_board b w true js).1.nb_moves = b.nb_moves) := by
  have hnb : (putLoop w (js.map (fun j => j.index)) (removeSubsetWords b w) []
      (wordCells w)).1.nb_moves = b.nb_moves := by
    rw [putLoop_nb_moves]; rfl
  unfold put_on_board
  cases h : putLoop w (js.map (fun j => j.index)) (removeSubsetWords b w) [] (wordCells w) with
  | mk b2 r =>
    rw [h] at hnb
    cases r with
    | none => simp_all
    | some lst => simp_all

/-- Witness for C10: a successful main-word placement on the empty board
increments the move counter to 1. -/
theorem put_on_board_move_counter_witness :
    (put_on_board Board.new ⟨['A', 'B'], .accross, ⟨7, 7⟩⟩ true []).2.isSome = true ∧
    (put_on_board Board.new ⟨['A', 'B'], .accross, ⟨7, 7⟩⟩ true []).1.nb_moves
      = Board.new.nb_moves + 1 :=
  ⟨by decide,
    (put_on_board_move_counter Board.new ⟨['A', 'B'], .accross, ⟨7, 7⟩⟩ []).2.2.2.2.2.2.1
      (by decide)⟩

/-! Claim C4: board state after a failed placement. -/

/-- Board holding the word BA down at (7, 8): letters B at (7, 8) and A at
(8, 8), after 3 moves. -/
def boardConflict : Board :=
  ⟨((List.replicate 225 ' ').set (7 * 15 + 8) 'B').set (8 * 15 + 8) 'A',
   ((List.replicate 225 0).set (7 * 15 + 8) 3).set (8 * 15 + 8) 1,
   [⟨['B', 'A'], .down, ⟨7, 8⟩⟩],
   [(⟨7, 8⟩, [⟨['B', 'A'], .down, ⟨7, 8⟩⟩]), (⟨8, 8⟩, [⟨['B', 'A'], .down, ⟨7, 8⟩⟩])],
   3⟩

/-- Counterexample to C4: placing CA across at (7, 7) on `boardConflict`
raises the cell-conflict error at the second cell (B already at (7, 8)), yet
the board is not unchanged: the C written into the empty cell (7, 7) before
the conflict stays on the board. -/
theorem put_on_board_conflict_mutates :
    (put_on_board boardConflict ⟨['C', 'A'], .accross, ⟨7, 7⟩⟩ true []).2 = none ∧
    (put_on_board boardConflict ⟨['C', 'A'], .accross, ⟨7, 7⟩⟩ true []).1.board
      ≠ boardConflict.board := by
  decide

/-- Amended C4: after a failed placement (cell conflict) the move counter is
unchanged and the placed-word set has not gained any word (it can only have
lost words removed by the subset pre-pass); the cell array, value array and
position index may retain the partial writes made before the conflict. -/
theorem put_on_board_failure_frame (b : Board) (w : Word) (im : Bool)
    (js : List JokerTuple) (h : (put_on_board b w im js).2 = none) :
    (put_on_board b w im js).1.nb_moves = b.nb_moves ∧
    ∀ x ∈ (put_on_board b w im js).1.word_set, x ∈ b.word_set := by
  have hnb := putLoop_nb_moves w (js.map (fun j => j.index)) (wordCells w)
    (removeSubsetWords b w) []
  have hws := putLoop_word_set w (js.map (fun j => j.index)) (wordCells w)
    (removeSubsetWords b w) []
  simp only [put_on_board] at h ⊢
  generalize hres : putLoop w (List.map (fun j => j.index) js) (removeSubsetWords b w) []
    (wordCells w) = res at h hnb hws ⊢
  obtain ⟨b2, r⟩ := res
  cases r with
  | none =>
    refine ⟨hnb, ?_⟩
    intro x hx
    have hx2 : x ∈ (removeSubsetWords b w).word_set := by rw [← hws]; exact hx
    exact List.mem_of_mem_filter hx2
  | some lst => exact Option.noConfusion h

/-- Witness for the amended C4 at the concrete conflicting placement. -/
theorem put_on_board_failure_frame_witness :
    ((put_on_board boardConflict ⟨['C', 'A'], .accross, ⟨7, 7⟩⟩ true []).2 = none) ∧
    ((put_on_board boardConflict ⟨['C', 'A'], .accross, ⟨7, 7⟩⟩ true []).1.nb_moves
        = boardConflict.nb_moves ∧
      ∀ x ∈ (put_on_board boardConflict ⟨['C', 'A'], .accross, ⟨7, 7⟩⟩ true []).1.word_set,
        x ∈ boardConflict.word_set) :=
  ⟨by decide,
    put_on_board_failure_frame boardConflict ⟨['C', 'A'], .accross, ⟨7, 7⟩⟩ true [] (by decide)⟩

/-! Claims C6 and C9: the candidate loop of `get_potential_solutions_for_line`
and its dependence on the iteration order of the word set. -/

/-- Lexicon containing exactly the words AB and ABA. -/
def trieABA : Trie :=
  .node false [('A', .node false [('B', .node true [('A', .node true [])])])]

/-- Chain of nodes spelling `n` further Zs, terminating at its end. -/
def zChain : Nat → Trie
  | 0 => .node true []
  | n + 1 => .node false [('Z', zChain n)]

/-- Lexicon containing the words AB and ABA together with the fifteen-letter
word ZZZZZZZZZZZZZZZ.  The long word gives the trie sixteen node levels, so
every mask slice of a 15-cell line satisfies the depth assert of
`possible_words_for_mask_with_rack` (dictionary.py:307); the letter Z occurs
neither on the board nor in the rack of the scenario below, so it yields no
candidate and changes no completion dict. -/
def trieABAZ : Trie :=
  .node false [('A', .node false [('B', .node true [('A', .node true [])])]),
    ('Z', zChain 14)]

/-- The word BA placed down at (7, 2). -/
def wordBAdown : Word := ⟨['B', 'A'], .down, ⟨7, 2⟩⟩

/-- The word DO placed down at (7, 4). -/
def wordDOdown : Word := ⟨['D', 'O'], .down, ⟨7, 4⟩⟩

/-- Board holding BA down at (7, 2) and DO down at (7, 4), two moves played.
On the across line of row 7 the anchor at (7, 1) with left index 1 yields the
candidate words AB and ABA; AB is accepted while ABA is followed by the
letter D at (7, 4). -/
def boardBADO : Board :=
  ⟨((((List.replicate 225 ' ').set (7 * 15 + 2) 'B').set (8 * 15 + 2) 'A').set
      (7 * 15 + 4) 'D').set (8 * 15 + 4) 'O',
   ((((List.replicate 225 0).set (7 * 15 + 2) 3).set (8 * 15 + 2) 1).set
      (7 * 15 + 4) 2).set (8 * 15 + 4) 1,
   [wordBAdown, wordDOdown],
   [(⟨7, 2⟩, [wordBAdown]), (⟨8, 2⟩, [wordBAdown]),
    (⟨7, 4⟩, [wordDOdown]), (⟨8, 4⟩, [wordDOdown])],
   2⟩

/-- C6 failing input: on row 7 of `boardBADO` over `trieABAZ`, the mask is
built without raising and the anchor's masked search returns both AB and ABA
(first conjunct).  When the set iteration happens to yield AB before ABA, AB
becomes a solution; when it yields ABA first, the rejection of ABA `break`s
out of the loop and the valid candidate AB is silently discarded, so the
anchor yields no solution at all — the rejection is not limited to the
rejected word. -/
theorem line_break_discards_valid_candidate :
    ((build_mask_for_line trieABAZ boardBADO ⟨.accross, 7⟩).isSome = true ∧
      possible_words_for_mask_with_rack trieABAZ
        (((build_mask_for_line trieABAZ boardBADO ⟨.accross, 7⟩).getD []).drop 1)
        ['A', 'A'] 2 = some [['A', 'B'], ['A', 'B', 'A']]) ∧
    ((get_potential_solutions_for_line trieABAZ id boardBADO ⟨.accross, 7⟩
        ['A', 'A']).map (fun sols => sols.map (fun s => s.main_word.text))
      = some [['A', 'B']]) ∧
    ((get_potential_solutions_for_line trieABAZ List.reverse boardBADO ⟨.accross, 7⟩
        ['A', 'A']).map (fun sols => sols.map (fun s => s.main_word.text))
      = some []) := by
  decide

/-- C9 failing input: with identical Board, Rack and Lexicon, two runs of the
solution generator that differ only in the (implementation-defined) iteration
order of the candidate word sets both complete without raising and return
different sorted solution lists. -/
theorem solution_list_depends_on_iteration_order :
    (get_sorted_list_of_solutions_for_rack trieABAZ id boardBADO ['A', 'A']).isSome
        = true ∧
    (get_sorted_list_of_solutions_for_rack trieABAZ List.reverse boardBADO
        ['A', 'A']).isSome = true ∧
    get_sorted_list_of_solutions_for_rack trieABAZ id boardBADO ['A', 'A'] ≠
      get_sorted_list_of_solutions_for_rack trieABAZ List.reverse boardBADO
        ['A', 'A'] := by
  decide

/-! Claim C5: the first-play call into the masked search. -/

/-- Lexicon containing the one-letter termination A and the six-letter word
BCDEFG.  Its trie has seven node levels, so the 7-cell first-play mask
satisfies the depth assert of the masked search, while the one-letter
termination makes the minimum-length argument observable; the `Trie`
structure and the masked search impose no minimum word length themselves. -/
def trieA7 : Trie :=
  .node false [('A', .node true []),
    ('B', .node false [('C', .node false [('D', .node false [('E', .node false
      [('F', .node false [('G', .node true [])])])])])])]

/-- A seven-tile rack of seven As. -/
def rackSevenAs : List Char := List.replicate 7 'A'

/-- Counterexample to C5 as stated: the first-play candidates are not the
solutions built from a minimum-length-2 masked search — on a lexicon with a
one-letter termination (and enough depth for the 7-cell mask) the generator
produces a one-letter candidate, which a minimum length of 2 would exclude
(the code passes min_length 1 at scrabble.py:1701). -/
theorem first_play_not_min_length_two :
    get_potential_solutions_for_first_play trieA7 Board.new rackSevenAs ≠
      (possible_words_for_mask_with_rack trieA7
        (List.replicate 7 (MaskItem.dict [])) rackSevenAs 2).map
        (fun ws => ws.map (firstPlaySolution Board.new rackSevenAs)) := by
  decide

/-- Amended C5: on a board with zero moves, whenever the generator returns a
solution list and the masked search over the 7-cell all-open mask with
minimum length 1 (not 2) and the rack tiles returns a word list, the
solutions are exactly those words, each placed across at the center (7, 7). -/
theorem first_play_uses_min_length_one (t : Trie)
    (ord : List (List Char) → List (List Char)) (b : Board) (rackTiles : List Char)
    (l : List Solution) (ws : List (List Char)) (h0 : b.nb_moves = 0)
    (h : get_sorted_list_of_solutions_for_rack t ord b rackTiles = some (some l))
    (hws : possible_words_for_mask_with_rack t
      (List.replicate 7 (MaskItem.dict [])) rackTiles 1 = some ws) :
    (∀ s ∈ l, s.main_word.origin = ⟨7, 7⟩ ∧ s.main_word.direction = .accross ∧
      s.main_word.text ∈ ws) ∧
    (∀ w ∈ ws, ∃ s ∈ l, s.main_word.text = w) := by
  have hcand : candidate_solutions t ord b rackTiles
      = get_potential_solutions_for_first_play t b rackTiles := by
    unfold candidate_solutions
    rw [if_pos h0]
  cases hc : candidate_solutions t ord b rackTiles with
  | none =>
    rw [get_sorted_list_of_solutions_for_rack, hc] at h
    exact Option.noConfusion h
  | some sl =>
    rw [get_sorted_list_of_solutions_for_rack, hc] at h
    have h2 := Option.some.inj h
    by_cases hemp : sl.isEmpty
    · rw [if_pos hemp] at h2
      exact Option.noConfusion h2
    · rw [if_neg hemp] at h2
      have hl : sl.insertionSort solutionLe = l := Option.some.inj h2
      rw [hcand, get_potential_solutions_for_first_play] at hc
      by_cases hr7 : rackTiles.length = 7
      · rw [if_pos hr7, hws] at hc
        have hsl : ws.map (firstPlaySolution b rackTiles) = sl := Option.some.inj hc
        constructor
        · intro s hs
          rw [← hl, List.mem_insertionSort, ← hsl, List.mem_map] at hs
          obtain ⟨w, hw, hsw⟩ := hs
          subst hsw
          exact ⟨rfl, rfl, hw⟩
        · intro w hw
          refine ⟨firstPlaySolution b rackTiles w, ?_, rfl⟩
          rw [← hl, List.mem_insertionSort, ← hsl]
          exact List.mem_map_of_mem _ hw
      · rw [if_neg hr7] at hc
        exact Option.noConfusion hc

/-- The single first-play solution for `trieA7` and `rackSevenAs`: A across
at the center, worth 2 (value 1 doubled by the center word square). -/
def firstPlayList : List Solution := [⟨⟨['A'], .accross, ⟨7, 7⟩⟩, [], [], 2, 2⟩]

/-- Witness for the amended C5 on a concrete first play. -/
theorem first_play_uses_min_length_one_witness :
    (Board.new.nb_moves = 0 ∧
      get_sorted_list_of_solutions_for_rack trieA7 id Board.new rackSevenAs
        = some (some firstPlayList) ∧
      possible_words_for_mask_with_rack trieA7
        (List.replicate 7 (MaskItem.dict [])) rackSevenAs 1 = some [['A']]) ∧
    ((∀ s ∈ firstPlayList, s.main_word.origin = ⟨7, 7⟩ ∧
        s.main_word.direction = .accross ∧ s.main_word.text ∈ [['A']]) ∧
      (∀ w ∈ ([['A']] : List (List Char)),
        ∃ s ∈ firstPlayList, s.main_word.text = w)) :=
  ⟨⟨rfl, by decide, by decide⟩,
    first_play_uses_min_length_one trieA7 id Board.new rackSevenAs firstPlayList
      [['A']] rfl (by decide) (by decide)⟩

/-! Claim C3: order of the returned solution list. -/

lemma lexLeB_total : ∀ a b : List Char, lexLeB a b = true ∨ lexLeB b a = true := by
  intro a
  induction a with
  | nil => intro b; left; rfl
  | cons x xs ih =>
    intro b
    cases b with
    | nil => right; rfl
    | cons y ys =>
      rcases lt_trichotomy x y with h | h | h
      · left; unfold lexLeB; rw [if_pos h]
      · subst h
        have hirr : ¬x < x := lt_irrefl x
        rcases ih ys with h2 | h2
        · left; unfold lexLeB; rw [if_neg hirr, if_pos rfl]; exact h2
        · right; unfold lexLeB; rw [if_neg hirr, if_pos rfl]; exact h2
      · right; unfold lexLeB; rw [if_pos h]

lemma lexLeB_trans : ∀ a b c : List Char,
    lexLeB a b = true → lexLeB b c = true → lexLeB a c = true := by
  intro a
  induction a with
  | nil => intro b c _ _; rfl
  | cons x xs ih =>
    intro b c hab hbc
    cases b with
    | nil => exact absurd hab (by simp [lexLeB])
    | cons y ys =>
      cases c with
      | nil => exact absurd hbc (by simp [lexLeB])
      | cons z zs =>
        unfold lexLeB at hab hbc ⊢
        by_cases hxy : x < y
        · rw [if_pos hxy] at hab
          by_cases hyz : y < z
          · rw [if_pos (lt_trans hxy hyz)]
          · by_cases hyz2 : y = z
            · subst hyz2; rw [if_pos hxy]
            · rw [if_neg hyz, if_neg hyz2] at hbc; cases hbc
        · rw [if_neg hxy] at hab
          by_cases hxy2 : x = y
          · subst hxy2
            rw [if_pos rfl] at hab
            by_cases hxz : x < z
            · rw [if_pos hxz]
            · rw [if_neg hxz] at hbc ⊢
              by_cases hxz2 : x = z
              · rw [if_pos hxz2] at hbc ⊢
                exact ih ys zs hab hbc
              · rw [if_neg hxz2] at hbc; cases hbc
          · rw [if_neg hxy2] at hab; cases hab

lemma solutionLe_total : ∀ s1 s2 : Solution, solutionLe s1 s2 ∨ solutionLe s2 s1 := by
  intro s1 s2
  unfold solutionLe solutionLeB
  rcases lt_trichotomy s1.score s2.score with h | h | h
  · left; rw [if_pos h]
  · have hirr : ¬s1.score < s2.score := by omega
    have hirr2 : ¬s2.score < s1.score := by omega
    rcases lexLeB_total s1.main_word.text s2.main_word.text with h2 | h2
    · left; rw [if_neg hirr, if_pos h]; exact h2
    · right; rw [if_neg hirr2, if_pos h.symm]; exact h2
  · right; rw [if_pos h]

lemma solutionLe_trans : ∀ s1 s2 s3 : Solution,
    solutionLe s1 s2 → solutionLe s2 s3 → solutionLe s1 s3 := by
  intro s1 s2 s3 h12 h23
  unfold solutionLe solutionLeB at h12 h23 ⊢
  by_cases ha : s1.score < s2.score
  · by_cases hb : s2.score < s3.score
    · rw [if_pos (lt_trans ha hb)]
    · by_cases hb2 : s2.score = s3.score
      · rw [if_pos (by omega : s1.score < s3.score)]
      · rw [if_neg hb, if_neg hb2] at h23; cases h23
  · by_cases ha2 : s1.score = s2.score
    · rw [if_neg ha, if_pos ha2] at h12
      by_cases hb : s2.score < s3.score
      · rw [if_pos (by omega : s1.score < s3.score)]
      · by_cases hb2 : s2.score = s3.score
        · rw [if_neg hb, if_pos hb2] at h23
          rw [if_neg (by omega : ¬s1.score < s3.score), if_pos (by omega : s1.score = s3.score)]
          exact lexLeB_trans _ _ _ h12 h23
        · rw [if_neg hb, if_neg hb2] at h23; cases h23
    · rw [if_neg ha, if_neg ha2] at h12; cases h12

lemma solutionLe_iff (s1 s2 : Solution) :
    solutionLe s1 s2 ↔ s1.score < s2.score ∨
      (s1.score = s2.score ∧ lexLeB s1.main_word.text s2.main_word.text = true) := by
  unfold solutionLe solutionLeB
  by_cases h : s1.score < s2.score
  · rw [if_pos h]; simp [h]
  · rw [if_neg h]
    by_cases h2 : s1.score = s2.score
    · rw [if_pos h2]; simp [h, h2]
    · rw [if_neg h2]; simp [h, h2]

instance : IsTotal Solution solutionLe := ⟨solutionLe_total⟩

instance : IsTrans Solution solutionLe := ⟨solutionLe_trans⟩

/-- C3: whenever the generator returns a solution list, that list is sorted
by score ascending with the main word text as the secondary key on score
ties, and `get_best_solution_for_rack` returns exactly its last element. -/
theorem sorted_solutions_spec (t : Trie)
    (ord : List (List Char) → List (List Char)) (b : Board)
    (rackTiles : List Char) (l : List Solution)
    (h : get_sorted_list_of_solutions_for_rack t ord b rackTiles = some (some l)) :
    l.Pairwise (fun s1 s2 => s1.score < s2.score ∨
      (s1.score = s2.score ∧ lexLeB s1.main_word.text s2.main_word.text = true)) ∧
    get_best_solution_for_rack t ord b rackTiles = some l.getLast? := by
  have horig := h
  cases hc : candidate_solutions t ord b rackTiles with
  | none =>
    rw [get_sorted_list_of_solutions_for_rack, hc] at h
    exact Option.noConfusion h
  | some sl =>
    rw [get_sorted_list_of_solutions_for_rack, hc] at h
    have h2 := Option.some.inj h
    by_cases hemp : sl.isEmpty
    · rw [if_pos hemp] at h2
      exact Option.noConfusion h2
    · rw [if_neg hemp] at h2
      have hl : sl.insertionSort solutionLe = l := Option.some.inj h2
      have hne : l ≠ [] := by
        intro h0
        rw [h0] at hl
        have hlen := congrArg List.length hl
        rw [List.length_insertionSort] at hlen
        rw [List.eq_nil_of_length_eq_zero hlen] at hemp
        exact hemp rfl
      have hie : l.isEmpty = false := by
        cases l with
        | nil => exact absurd rfl hne
        | cons x xs => rfl
      constructor
      · rw [← hl]
        have hs := List.sorted_insertionSort solutionLe sl
        exact hs.imp (fun hab => (solutionLe_iff _ _).mp hab)
      · rw [get_best_solution_for_rack, horig]
        show some (if l.isEmpty then none else l.getLast?) = some l.getLast?
        rw [hie]
        rfl

/-- The sorted solution list of `boardBADO`, `trieABAZ` and the rack AA. -/
def sortedBADO : List Solution :=
  [⟨⟨['A', 'B'], .accross, ⟨7, 1⟩⟩, [], [], 4, 4⟩,
   ⟨⟨['A', 'B', 'A'], .down, ⟨6, 2⟩⟩, [], [], 6, 6⟩]

/-- Witness for C3 on a concrete board with two solutions of distinct
scores. -/
theorem sorted_solutions_spec_witness :
    (get_sorted_list_of_solutions_for_rack trieABAZ id boardBADO ['A', 'A']
      = some (some sortedBADO)) ∧
    (sortedBADO.Pairwise (fun s1 s2 => s1.score < s2.score ∨
        (s1.score = s2.score ∧ lexLeB s1.main_word.text s2.main_word.text = true)) ∧
      get_best_solution_for_rack trieABAZ id boardBADO ['A', 'A']
        = some sortedBADO.getLast?) :=
  ⟨by decide,
    sorted_solutions_spec trieABAZ id boardBADO ['A', 'A'] sortedBADO (by decide)⟩

/-! Claim C2: Solution value against the section 4.5 scoring formulas.  The
`spec_` definitions below formalise the spec's formulas and are compared with
the embedded code. -/

/-- True when the board cell at the position is still empty, i.e. the letter
at this position is newly placed by the move under evaluation. -/
def cellEmptyB (b : Board) (p : Position) : Bool :=
  decide (b.board.getD (posIdx p) ' ' = ' ')

/-- Section 4.5 word multiplier: product of the word multipliers of the
cells that were empty before the move. -/
def spec_word_mult (b : Board) (cells : List (Nat × Char × Position)) : Nat :=
  ((cells.filter (fun x => cellEmptyB b x.2.2)).map
    (fun x => WORD_MULTIPLIER_SET.getD (posIdx x.2.2) 1)).prod

/-- Section 4.5 letter sum: an already occupied cell contributes its stored
effective value with no multiplier (0 for an old blank); a newly filled cell
contributes its tile value (0 for a newly placed blank) times the letter
multiplier of the cell. -/
def spec_letter_sum (b : Board) (ji : List Nat)
    (cells : List (Nat × Char × Position)) : Nat :=
  (cells.map (fun x =>
    if cellEmptyB b x.2.2 then
      (if x.1 ∈ ji then 0 else character_value x.2.1)
        * LETTER_MULTIPLIER_SET.getD (posIdx x.2.2) 1
    else b.board_values.getD (posIdx x.2.2) 0)).sum

/-- Section 4.5 count of newly filled cells. -/
def spec_new_tiles (b : Board) (cells : List (Nat × Char × Position)) : Nat :=
  (cells.filter (fun x => cellEmptyB b x.2.2)).length

/-- Count of cells already occupied before the move. -/
def spec_occupied_count (b : Board) (cells : List (Nat × Char × Position)) : Nat :=
  (cells.filter (fun x => !cellEmptyB b x.2.2)).length

/-- Section 4.5 main word value: letter sum times word multiplier, plus the
50-point bonus exactly when at least 7 cells are newly filled. -/
def spec_main_value (b : Board) (w : Word) (js : List JokerTuple) : Nat :=
  spec_letter_sum b (js.map (fun j => j.index)) (wordCells w)
      * spec_word_mult b (wordCells w) +
    (if 7 ≤ spec_new_tiles b (wordCells w) then 50 else 0)

/-- Section 4.5 cross word value: the intersection cell contributes its tile
value times the letter multiplier unless it was filled by a blank; every
other cell contributes its stored effective value; the sum is multiplied by
the word multiplier of the intersection cell. -/
def spec_cross_value (b : Board) (cw : CrossWord) (joker_at_crossing : Bool) : Nat :=
  let k := cw.index_of_main_word_line
  let pk := cw.word.posAt k
  ((if joker_at_crossing then 0
    else character_value (cw.word.text.getD k ' ')
      * LETTER_MULTIPLIER_SET.getD (posIdx pk) 1) +
   (((wordCells cw.word).filter (fun x => x.1 ≠ k)).map
     (fun x => b.board_values.getD (posIdx x.2.2) 0)).sum)
    * WORD_MULTIPLIER_SET.getD (posIdx pk) 1

lemma wm_ge_one (i : Nat) : 1 ≤ WORD_MULTIPLIER_SET.getD i 1 := by
  have hall : ∀ n ∈ WORD_MULTIPLIER_SET, 1 ≤ n := by decide
  rw [List.getD_eq_getElem?_getD]
  cases hg : WORD_MULTIPLIER_SET[i]? with
  | none => simp
  | some n =>
    have := hall n (List.getElem?_mem hg)
    simpa using this

lemma spec_letter_sum_cons (b : Board) (ji : List Nat) (x : Nat × Char × Position)
    (rest : List (Nat × Char × Position)) :
    spec_letter_sum b ji (x :: rest) =
      (if cellEmptyB b x.2.2 then
        (if x.1 ∈ ji then 0 else character_value x.2.1)
          * LETTER_MULTIPLIER_SET.getD (posIdx x.2.2) 1
       else b.board_values.getD (posIdx x.2.2) 0) + spec_letter_sum b ji rest := by
  simp [spec_letter_sum]

lemma spec_word_mult_cons (b : Board) (x : Nat × Char × Position)
    (rest : List (Nat × Char × Position)) :
    spec_word_mult b (x :: rest) =
      (if cellEmptyB b x.2.2 then WORD_MULTIPLIER_SET.getD (posIdx x.2.2) 1 else 1)
        * spec_word_mult b rest := by
  by_cases h : cellEmptyB b x.2.2 <;> simp [spec_word_mult, List.filter_cons, h]

lemma spec_new_tiles_cons (b : Board) (x : Nat × Char × Position)
    (rest : List (Nat × Char × Position)) :
    spec_new_tiles b (x :: rest) =
      (if cellEmptyB b x.2.2 then 1 else 0) + spec_new_tiles b rest := by
  by_cases h : cellEmptyB b x.2.2 <;> simp [spec_new_tiles, List.filter_cons, h] <;> omega

lemma spec_occupied_count_cons (b : Board) (x : Nat × Char × Position)
    (rest : List (Nat × Char × Position)) :
    spec_occupied_count b (x :: rest) =
      (if cellEmptyB b x.2.2 then 0 else 1) + spec_occupied_count b rest := by
  by_cases h : cellEmptyB b x.2.2 <;>
    simp [spec_occupied_count, List.filter_cons, h] <;> omega

lemma cwvLoop_spec (b : Board) (ji : List Nat) :
    ∀ (cells : List (Nat × Char × Position)) (v k nb : Nat),
      cwvLoop b ji cells (v, k, nb) =
        (v + spec_letter_sum b ji cells,
         k * spec_word_mult b cells,
         nb - spec_occupied_count b cells) := by
  intro cells
  induction cells with
  | nil =>
    intro v k nb
    show (v, k, nb) = _
    simp [spec_letter_sum, spec_word_mult, spec_occupied_count]
  | cons x rest ih =>
    intro v k nb
    obtain ⟨i, letter, pos⟩ := x
    rw [show cwvLoop b ji ((i, letter, pos) :: rest) (v, k, nb) =
      if b.board.getD (posIdx pos) ' ' ≠ ' ' then
        cwvLoop b ji rest (v + b.board_values.getD (posIdx pos) 0, k, nb - 1)
      else
        cwvLoop b ji rest
          ((if i ∈ ji then v
            else v + character_value letter * LETTER_MULTIPLIER_SET.getD (posIdx pos) 1),
           (if 1 < WORD_MULTIPLIER_SET.getD (posIdx pos) 1 then
              k * WORD_MULTIPLIER_SET.getD (posIdx pos) 1
            else k),
           nb) from rfl]
    rw [spec_letter_sum_cons, spec_word_mult_cons, spec_occupied_count_cons]
    by_cases hc : b.board.getD (posIdx pos) ' ' = ' '
    · have hce : cellEmptyB b pos = true := decide_eq_true hc
      rw [if_neg (not_not_intro hc), ih]
      simp only [hce, if_true, Prod.mk.injEq]
      refine ⟨?_, ?_, ?_⟩
      · by_cases hji : i ∈ ji
        · rw [if_pos hji, if_pos hji]
          omega
        · rw [if_neg hji, if_neg hji]
          omega
      · by_cases h1 : 1 < WORD_MULTIPLIER_SET.getD (posIdx pos) 1
        · rw [if_pos h1, Nat.mul_assoc]
        · rw [if_neg h1]
          have hge := wm_ge_one (posIdx pos)
          have heq : WORD_MULTIPLIER_SET.getD (posIdx pos) 1 = 1 := by omega
          rw [heq, Nat.one_mul]
      · omega
    · have hce : cellEmptyB b pos = false := decide_eq_false hc
      rw [if_pos hc, ih]
      simp only [hce, Bool.false_eq_true, if_false, Prod.mk.injEq]
      exact ⟨by omega, by rw [Nat.one_mul], by omega⟩

lemma wordCells_length (w : Word) : (wordCells w).length = w.text.length := by
  simp [wordCells]

lemma occ_add_new (b : Board) (cells : List (Nat × Char × Position)) :
    spec_occupied_count b cells + spec_new_tiles b cells = cells.length := by
  induction cells with
  | nil => rfl
  | cons x rest ih =>
    rw [spec_occupied_count_cons, spec_new_tiles_cons, List.length_cons]
    by_cases h : cellEmptyB b x.2.2 = true
    · rw [if_pos h, if_pos h]; omega
    · rw [if_neg h, if_neg h]; omega

/-- Code/spec agreement for the main word: `compute_word_value` equals the
section 4.5 formula. -/
lemma compute_word_value_spec (b : Board) (w : Word) (js : List JokerTuple) :
    compute_word_value b w js = spec_main_value b w js := by
  rw [show compute_word_value b w js =
      (if 7 ≤ (cwvLoop b (js.map (fun j => j.index)) (wordCells w)
          (0, 1, w.text.length)).2.2 then
        (cwvLoop b (js.map (fun j => j.index)) (wordCells w) (0, 1, w.text.length)).1 *
          (cwvLoop b (js.map (fun j => j.index)) (wordCells w) (0, 1, w.text.length)).2.1 + 50
      else
        (cwvLoop b (js.map (fun j => j.index)) (wordCells w) (0, 1, w.text.length)).1 *
          (cwvLoop b (js.map (fun j => j.index)) (wordCells w) (0, 1, w.text.length)).2.1)
      from rfl]
  rw [cwvLoop_spec]
  have hsplit := occ_add_new b (wordCells w)
  rw [wordCells_length] at hsplit
  have hnb : w.text.length - spec_occupied_count b (wordCells w)
      = spec_new_tiles b (wordCells w) := by omega
  show (if 7 ≤ w.text.length - spec_occupied_count b (wordCells w) then
      (0 + spec_letter_sum b (js.map (fun j => j.index)) (wordCells w)) *
        (1 * spec_word_mult b (wordCells w)) + 50
    else
      (0 + spec_letter_sum b (js.map (fun j => j.index)) (wordCells w)) *
        (1 * spec_word_mult b (wordCells w))) = spec_main_value b w js
  rw [hnb, Nat.zero_add, Nat.one_mul]
  unfold spec_main_value
  by_cases h7 : 7 ≤ spec_new_tiles b (wordCells w)
  · rw [if_pos h7, if_pos h7]
  · rw [if_neg h7, if_neg h7, Nat.add_zero]

lemma ccwvLoop_append (b : Board) (k : Nat) (jok : Bool) :
    ∀ (l1 l2 : List (Nat × Char × Position)) (acc : Nat × Nat),
      ccwvLoop b k jok (l1 ++ l2) acc = ccwvLoop b k jok l2 (ccwvLoop b k jok l1 acc) := by
  intro l1
  induction l1 with
  | nil => intro l2 acc; rfl
  | cons x rest ih =>
    intro l2 acc
    obtain ⟨i, letter, pos⟩ := x
    obtain ⟨v, c⟩ := acc
    by_cases hik : i = k
    · simp only [List.cons_append, ccwvLoop, if_pos hik]
      exact ih _ _
    · simp only [List.cons_append, ccwvLoop, if_neg hik]
      exact ih _ _

lemma ccwvLoop_no_k (b : Board) (k : Nat) (jok : Bool) :
    ∀ (cells : List (Nat × Char × Position)) (v c : Nat),
      (∀ x ∈ cells, x.1 ≠ k) →
      ccwvLoop b k jok cells (v, c) =
        (v + (cells.map (fun x => b.board_values.getD (posIdx x.2.2) 0)).sum, c) := by
  intro cells
  induction cells with
  | nil => intro v c _; simp [ccwvLoop]
  | cons x rest ih =>
    intro v c hne
    obtain ⟨i, letter, pos⟩ := x
    have hi : i ≠ k := hne (i, letter, pos) (List.mem_cons_self _ _)
    simp only [ccwvLoop, if_neg hi]
    rw [ih _ _ (fun y hy => hne y (List.mem_cons_of_mem _ hy))]
    simp only [List.map_cons, List.sum_cons]
    congr 1
    omega

lemma wordCells_split (w : Word) (k : Nat) (hk : k < w.text.length) :
    wordCells w =
      ((List.range k).map (fun i => (i, w.text.getD i ' ', w.posAt i))) ++
        (k, w.text.getD k ' ', w.posAt k) ::
        ((List.range' (k + 1) (w.text.length - (k + 1))).map
          (fun i => (i, w.text.getD i ' ', w.posAt i))) := by
  unfold wordCells
  have h1 : List.range' 0 k ++ List.range' (0 + k) (w.text.length - k)
      = List.range' 0 ((w.text.length - k) + k) := List.range'_append_1 0 k _
  rw [Nat.zero_add] at h1
  rw [show w.text.length - k + k = w.text.length by omega] at h1
  rw [List.range_eq_range', ← h1]
  rw [show w.text.length - k = (w.text.length - (k + 1)) + 1 by omega]
  rw [List.range'_succ]
  rw [List.map_append, List.map_cons, ← List.range_eq_range']

lemma ccwvLoop_cons_k (b : Board) (k : Nat) (jok : Bool) (letter : Char)
    (pos : Position) (rest : List (Nat × Char × Position)) (v c : Nat) :
    ccwvLoop b k jok ((k, letter, pos) :: rest) (v, c) =
      ccwvLoop b k jok rest
        ((if jok then v
          else v + character_value letter * LETTER_MULTIPLIER_SET.getD (posIdx pos) 1),
         (if c < WORD_MULTIPLIER_SET.getD (posIdx pos) 1 then
            c * WORD_MULTIPLIER_SET.getD (posIdx pos) 1
          else c)) := by
  show (if k = k then
      ccwvLoop b k jok rest
        ((if jok then v
          else v + character_value letter * LETTER_MULTIPLIER_SET.getD (posIdx pos) 1),
         (if c < WORD_MULTIPLIER_SET.getD (posIdx pos) 1 then
            c * WORD_MULTIPLIER_SET.getD (posIdx pos) 1
          else c))
    else ccwvLoop b k jok rest (v + b.board_values.getD (posIdx pos) 0, c)) = _
  rw [if_pos rfl]

/-- Code/spec agreement for a cross word: `compute_cross_word_value` equals
the section 4.5 formula when the intersection offset lies inside the cross
word (an invariant asserted by `Solution.__init__`). -/
lemma compute_cross_word_value_spec (b : Board) (cw : CrossWord) (jok : Bool)
    (hk : cw.index_of_main_word_line < cw.word.text.length) :
    compute_cross_word_value b cw jok = spec_cross_value b cw jok := by
  obtain ⟨w, k⟩ := cw
  have hk' : k < w.text.length := hk
  rw [show compute_cross_word_value b ⟨w, k⟩ jok =
      (ccwvLoop b k jok (wordCells w) (0, 1)).1 *
        (ccwvLoop b k jok (wordCells w) (0, 1)).2 from rfl]
  rw [show spec_cross_value b ⟨w, k⟩ jok =
      ((if jok then 0
        else character_value (w.text.getD k ' ')
          * LETTER_MULTIPLIER_SET.getD (posIdx (w.posAt k)) 1) +
       (((wordCells w).filter (fun x => x.1 ≠ k)).map
         (fun x => b.board_values.getD (posIdx x.2.2) 0)).sum)
        * WORD_MULTIPLIER_SET.getD (posIdx (w.posAt k)) 1 from rfl]
  rw [wordCells_split w k hk']
  have hpreK : ∀ x ∈ (List.range k).map
      (fun i => (i, w.text.getD i ' ', w.posAt i)), x.1 ≠ k := by
    intro x hx
    rw [List.mem_map] at hx
    obtain ⟨i, hi, hxi⟩ := hx
    subst hxi
    exact Nat.ne_of_lt (List.mem_range.mp hi)
  have hpostK : ∀ x ∈ (List.range' (k + 1) (w.text.length - (k + 1))).map
      (fun i => (i, w.text.getD i ' ', w.posAt i)), x.1 ≠ k := by
    intro x hx
    rw [List.mem_map] at hx
    obtain ⟨i, hi, hxi⟩ := hx
    subst hxi
    show i ≠ k
    obtain ⟨j, _, hij⟩ := List.mem_range'.mp hi
    omega
  rw [ccwvLoop_append, ccwvLoop_no_k b k jok _ 0 1 hpreK, ccwvLoop_cons_k,
    ccwvLoop_no_k b k jok _ _ _ hpostK]
  rw [List.filter_append, List.filter_cons_of_neg (by simp)]
  rw [List.filter_eq_self.mpr (fun x hx => decide_eq_true (hpreK x hx)),
    List.filter_eq_self.mpr (fun x hx => decide_eq_true (hpostK x hx))]
  rw [List.map_append, List.sum_append]
  set SA := (((List.range k).map (fun i => (i, w.text.getD i ' ', w.posAt i))).map
    (fun x => b.board_values.getD (posIdx x.2.2) 0)).sum with hSA
  set SB := (((List.range' (k + 1) (w.text.length - (k + 1))).map
      (fun i => (i, w.text.getD i ' ', w.posAt i))).map
    (fun x => b.board_values.getD (posIdx x.2.2) 0)).sum with hSB
  show ((if jok then 0 + SA
      else 0 + SA + character_value (w.text.getD k ' ')
        * LETTER_MULTIPLIER_SET.getD (posIdx (w.posAt k)) 1) + SB) *
    (if 1 < WORD_MULTIPLIER_SET.getD (posIdx (w.posAt k)) 1 then
      1 * WORD_MULTIPLIER_SET.getD (posIdx (w.posAt k)) 1 else 1) = _
  have hwm : (if 1 < WORD_MULTIPLIER_SET.getD (posIdx (w.posAt k)) 1 then
      1 * WORD_MULTIPLIER_SET.getD (posIdx (w.posAt k)) 1 else 1)
      = WORD_MULTIPLIER_SET.getD (posIdx (w.posAt k)) 1 := by
    by_cases h1 : 1 < WORD_MULTIPLIER_SET.getD (posIdx (w.posAt k)) 1
    · rw [if_pos h1, Nat.one_mul]
    · rw [if_neg h1]
      have hge := wm_ge_one (posIdx (w.posAt k))
      omega
  rw [hwm]
  by_cases hjc : jok = true
  · rw [hjc, if_pos rfl, if_pos rfl]
    ring
  · rw [Bool.not_eq_true] at hjc
    rw [hjc, if_neg (by simp), if_neg (by simp)]
    ring

lemma foldl_add_map {α : Type} (f : α → Nat) :
    ∀ (l : List α) (init : Nat),
      l.foldl (fun acc x => acc + f x) init = init + (l.map f).sum := by
  intro l
  induction l with
  | nil => intro init; simp
  | cons x rest ih =>
    intro init
    simp only [List.foldl_cons, List.map_cons, List.sum_cons]
    rw [ih]
    omega

/-- C2: the value stored by `Solution.__init__` equals the main word value of
the section 4.5 formula plus the sum of the section 4.5 cross word values,
with the joker-at-crossing flag of each cross word determined by whether the
intersection offset in the main word carries a blank. -/
theorem solution_value_spec (b : Board) (main : Word) (cwl : List CrossWord)
    (js : List JokerTuple)
    (h : ∀ cw ∈ cwl, cw.index_of_main_word_line < cw.word.text.length) :
    (mkSolution b main cwl js).value =
      spec_main_value b main js +
        (cwl.map (fun cw => spec_cross_value b cw
          (decide (main.intersection_index cw.word ∈ js.map (fun j => j.index))))).sum := by
  show cwl.foldl _ _ = _
  rw [foldl_add_map]
  rw [compute_word_value_spec]
  congr 1
  congr 1
  apply List.map_congr_left
  intro cw hcw
  exact compute_cross_word_value_spec b cw _ (h cw hcw)

/-- Witness for C2 on a concrete board, main word and cross word. -/
theorem solution_value_spec_witness :
    (∀ cw ∈ ([⟨⟨['A', 'B'], .down, ⟨6, 2⟩⟩, 1⟩] : List CrossWord),
      cw.index_of_main_word_line < cw.word.text.length) ∧
    (mkSolution boardBADO ⟨['A', 'B'], .accross, ⟨7, 1⟩⟩
        [⟨⟨['A', 'B'], .down, ⟨6, 2⟩⟩, 1⟩] []).value =
      spec_main_value boardBADO ⟨['A', 'B'], .accross, ⟨7, 1⟩⟩ [] +
        (([⟨⟨['A', 'B'], .down, ⟨6, 2⟩⟩, 1⟩] : List CrossWord).map
          (fun cw => spec_cross_value boardBADO cw
            (decide ((⟨['A', 'B'], .accross, ⟨7, 1⟩⟩ : Word).intersection_index cw.word
              ∈ ([] : List JokerTuple).map (fun j => j.index))))).sum :=
  ⟨by decide,
    solution_value_spec boardBADO ⟨['A', 'B'], .accross, ⟨7, 1⟩⟩
      [⟨⟨['A', 'B'], .down, ⟨6, 2⟩⟩, 1⟩] [] (by decide)⟩

/-! Claim C1: soundness of the masked rack search. -/

lemma mem_filterMap_if {α β : Type} (l : List α) (p : α → Prop) [DecidablePred p]
    (f : α → β) (y : β)
    (hy : y ∈ l.filterMap (fun a => if p a then some (f a) else none)) :
    ∃ a ∈ l, p a ∧ y = f a := by
  rw [List.mem_filterMap] at hy
  obtain ⟨a, ha, hfa⟩ := hy
  by_cases hp : p a
  · rw [if_pos hp] at hfa
    exact ⟨a, ha, hp, (Option.some.inj hfa).symm⟩
  · rw [if_neg hp] at hfa
    cases hfa

lemma maskOkB_nil_right (ms : List MaskItem) : maskOkB ms [] = true := by
  cases ms <;> rfl

lemma nonBoardLetters_nil_right (ms : List MaskItem) : nonBoardLetters ms [] = [] := by
  cases ms with
  | nil => rfl
  | cons m0 ms' => cases m0 <;> rfl

lemma maskOkB_append : ∀ (ms : List MaskItem) (w : List Char) (c : Char)
    (item : MaskItem), maskOkB ms w = true → ms[w.length]? = some item →
    itemOkB item c = true → maskOkB ms (w ++ [c]) = true := by
  intro ms w
  induction w generalizing ms with
  | nil =>
    intro c item _ hitem hok
    cases ms with
    | nil => cases hitem
    | cons m0 ms' =>
      rw [List.length_nil, List.getElem?_cons_zero] at hitem
      have h2 := Option.some.inj hitem
      subst h2
      show (itemOkB m0 c && maskOkB ms' []) = true
      rw [hok, maskOkB_nil_right]
      rfl
  | cons x xs ih =>
    intro c item hmask hitem hok
    cases ms with
    | nil => cases hmask
    | cons m0 ms' =>
      have hsplit : (itemOkB m0 x && maskOkB ms' xs) = true := hmask
      rw [Bool.and_eq_true] at hsplit
      rw [List.length_cons, List.getElem?_cons_succ] at hitem
      show (itemOkB m0 x && maskOkB ms' (xs ++ [c])) = true
      rw [Bool.and_eq_true]
      exact ⟨hsplit.1, ih ms' c item hsplit.2 hitem hok⟩

lemma nonBoard_append : ∀ (ms : List MaskItem) (w : List Char) (c : Char)
    (item : MaskItem), ms[w.length]? = some item →
    nonBoardLetters ms (w ++ [c]) =
      nonBoardLetters ms w ++ (if item.has_letter then [] else [c]) := by
  intro ms w
  induction w generalizing ms with
  | nil =>
    intro c item hitem
    cases ms with
    | nil => cases hitem
    | cons m0 ms' =>
      rw [List.length_nil, List.getElem?_cons_zero] at hitem
      have h2 := Option.some.inj hitem
      subst h2
      cases m0 with
      | letter a =>
        rw [show nonBoardLetters (MaskItem.letter a :: ms') ([] ++ [c])
            = nonBoardLetters ms' [] from rfl,
          nonBoardLetters_nil_right, nonBoardLetters_nil_right ((MaskItem.letter a) :: ms')]
        rfl
      | dict m =>
        rw [show nonBoardLetters (MaskItem.dict m :: ms') ([] ++ [c])
            = c :: nonBoardLetters ms' [] from rfl,
          nonBoardLetters_nil_right, nonBoardLetters_nil_right ((MaskItem.dict m) :: ms')]
        rfl
      | dead =>
        rw [show nonBoardLetters (MaskItem.dead :: ms') ([] ++ [c])
            = c :: nonBoardLetters ms' [] from rfl,
          nonBoardLetters_nil_right, nonBoardLetters_nil_right (MaskItem.dead :: ms')]
        rfl
  | cons x xs ih =>
    intro c item hitem
    cases ms with
    | nil => cases hitem
    | cons m0 ms' =>
      rw [List.length_cons, List.getElem?_cons_succ] at hitem
      cases m0 with
      | letter a =>
        show nonBoardLetters ms' (xs ++ [c]) = nonBoardLetters ms' xs ++ _
        exact ih ms' c item hitem
      | dict m =>
        show x :: nonBoardLetters ms' (xs ++ [c]) = x :: nonBoardLetters ms' xs ++ _
        rw [ih ms' c item hitem]
        rfl
      | dead =>
        show x :: nonBoardLetters ms' (xs ++ [c]) = x :: nonBoardLetters ms' xs ++ _
        rw [ih ms' c item hitem]
        rfl

lemma stepItem_preserves (mask0 : List MaskItem) (rack0 : List Char) (d : Nat)
    (item : MaskItem) (hitem : mask0[d]? = some item) (e : WaveEntry)
    (hlen : e.word.length = d) (hok : maskOkB mask0 e.word = true)
    (hdr : Draws (nonBoardLetters mask0 e.word) rack0 e.tiles) :
    ∀ e' ∈ stepItem item e,
      e'.word.length = d + 1 ∧ maskOkB mask0 e'.word = true ∧
        Draws (nonBoardLetters mask0 e'.word) rack0 e'.tiles := by
  have hitemw : mask0[e.word.length]? = some item := by rw [hlen]; exact hitem
  intro e' he'
  cases item with
  | dead => cases he'
  | letter c =>
    rw [show stepItem (.letter c) e = stepLetter c e from rfl] at he'
    unfold stepLetter at he'
    cases hedge : edgeLookup c e.node.edges_out with
    | none => rw [hedge] at he'; cases he'
    | some t' =>
      rw [hedge] at he'
      have he2 : e' = ⟨e.word ++ [c], t', e.tiles⟩ := List.mem_singleton.mp he'
      subst he2
      refine ⟨by simp [hlen], ?_, ?_⟩
      · exact maskOkB_append mask0 e.word c _ hok hitemw (by simp [itemOkB])
      · rw [nonBoard_append mask0 e.word c _ hitemw]
        show Draws (nonBoardLetters mask0 e.word ++ []) rack0 e.tiles
        rw [List.append_nil]
        exact hdr
  | dict m =>
    rw [show stepItem (.dict m) e = if m.isEmpty then stepOpen e else stepCross m e
      from rfl] at he'
    have hnb : nonBoardLetters mask0 (e.word ++ [_]) = _ :=
      nonBoard_append mask0 e.word ' ' _ hitemw
    by_cases hm : m.isEmpty
    · rw [if_pos hm] at he'
      unfold stepOpen at he'
      rw [List.mem_append] at he'
      rcases he' with he' | he'
      · obtain ⟨ct, _, hcond, rfl⟩ := mem_filterMap_if _ _ _ _ he'
        refine ⟨by simp [hlen], ?_, ?_⟩
        · exact maskOkB_append mask0 e.word ct.1 _ hok hitemw (by simp [itemOkB, hm])
        · rw [nonBoard_append mask0 e.word ct.1 _ hitemw]
          show Draws (nonBoardLetters mask0 e.word ++ [ct.1]) rack0 (e.tiles.erase ct.1)
          exact hdr.append_letter hcond.1
      · by_cases hblank : ' ' ∈ e.tiles
        · rw [if_pos hblank] at he'
          obtain ⟨ct, _, hcond, rfl⟩ := mem_filterMap_if _ _ _ _ he'
          refine ⟨by simp [hlen], ?_, ?_⟩
          · exact maskOkB_append mask0 e.word ct.1 _ hok hitemw (by simp [itemOkB, hm])
          · rw [nonBoard_append mask0 e.word ct.1 _ hitemw]
            show Draws (nonBoardLetters mask0 e.word ++ [ct.1]) rack0 (e.tiles.erase ' ')
            exact hdr.append_blank ct.1 hblank
        · rw [if_neg hblank] at he'
          cases he'
    · rw [if_neg hm] at he'
      unfold stepCross at he'
      rw [List.mem_append] at he'
      rcases he' with he' | he'
      · obtain ⟨ct, _, hcond, rfl⟩ := mem_filterMap_if _ _ _ _ he'
        refine ⟨by simp [hlen], ?_, ?_⟩
        · refine maskOkB_append mask0 e.word ct.1 _ hok hitemw ?_
          show (m.isEmpty || (m.lookup ct.1).isSome) = true
          rw [hcond.2]
          exact Bool.or_true _
        · rw [nonBoard_append mask0 e.word ct.1 _ hitemw]
          show Draws (nonBoardLetters mask0 e.word ++ [ct.1]) rack0 (e.tiles.erase ct.1)
          exact hdr.append_letter hcond.1
      · by_cases hblank : ' ' ∈ e.tiles
        · rw [if_pos hblank] at he'
          obtain ⟨ct, _, hcond, rfl⟩ := mem_filterMap_if _ _ _ _ he'
          refine ⟨by simp [hlen], ?_, ?_⟩
          · refine maskOkB_append mask0 e.word ct.1 _ hok hitemw ?_
            show (m.isEmpty || (m.lookup ct.1).isSome) = true
            rw [hcond.1]
            exact Bool.or_true _
          · rw [nonBoard_append mask0 e.word ct.1 _ hitemw]
            show Draws (nonBoardLetters mask0 e.word ++ [ct.1]) rack0 (e.tiles.erase ' ')
            exact hdr.append_blank ct.1 hblank
        · rw [if_neg hblank] at he'
          cases he'

lemma searchLoop_cons_ne_dead (minLen : Nat) (item : MaskItem) (rest : List MaskItem)
    (wave : List WaveEntry) (d : Nat) (h : item ≠ .dead) :
    searchLoop minLen (item :: rest) wave d =
      (if minLen ≤ d + 1 then
        ((wave.flatMap (stepItem item)).filter (fun e => e.node.is_termination)).map
          (fun e => e.word)
      else []) ++ searchLoop minLen rest (wave.flatMap (stepItem item)) (d + 1) := by
  cases item with
  | dead => exact absurd rfl h
  | letter c => rfl
  | dict m => rfl

lemma searchLoop_sound (mask0 : List MaskItem) (rack0 : List Char) (minLen : Nat) :
    ∀ (ms : List MaskItem) (d : Nat) (wave : List WaveEntry),
      ms = mask0.drop d →
      (∀ e ∈ wave, e.word.length = d ∧ maskOkB mask0 e.word = true ∧
        Draws (nonBoardLetters mask0 e.word) rack0 e.tiles) →
      ∀ w ∈ searchLoop minLen ms wave d,
        minLen ≤ w.length ∧ w.length ≤ mask0.length ∧ maskOkB mask0 w = true ∧
          canDraw (nonBoardLetters mask0 w) rack0 = true := by
  intro ms
  induction ms with
  | nil =>
    intro d wave _ _ w hw
    cases hw
  | cons item rest ih =>
    intro d wave hdrop hinv w hw
    have hitem : mask0[d]? = some item := by
      have h0 : (mask0.drop d)[0]? = some item := by
        rw [← hdrop]
        exact List.getElem?_cons_zero
      rw [List.getElem?_drop] at h0
      simpa using h0
    have hdlt : d < mask0.length := by
      obtain ⟨hlt, _⟩ := List.getElem?_eq_some_iff.mp hitem
      exact hlt
    have hrest : rest = mask0.drop (d + 1) := by
      have h1 : (mask0.drop d).drop 1 = mask0.drop (d + 1) := List.drop_drop 1 d mask0
      rw [← hdrop] at h1
      rw [show (item :: rest).drop 1 = rest from rfl] at h1
      exact h1
    by_cases hdead : item = .dead
    · subst hdead
      rw [show searchLoop minLen (.dead :: rest) wave d = [] from rfl] at hw
      cases hw
    · rw [searchLoop_cons_ne_dead minLen item rest wave d hdead] at hw
      have hinv' : ∀ e ∈ wave.flatMap (stepItem item),
          e.word.length = d + 1 ∧ maskOkB mask0 e.word = true ∧
            Draws (nonBoardLetters mask0 e.word) rack0 e.tiles := by
        intro e' he'
        rw [List.mem_flatMap] at he'
        obtain ⟨e, he, hstep⟩ := he'
        obtain ⟨h1, h2, h3⟩ := hinv e he
        exact stepItem_preserves mask0 rack0 d item hitem e h1 h2 h3 e' hstep
      rw [List.mem_append] at hw
      rcases hw with hw | hw
      · by_cases hmin : minLen ≤ d + 1
        · rw [if_pos hmin] at hw
          rw [List.mem_map] at hw
          obtain ⟨e', he', rfl⟩ := hw
          obtain ⟨h1, h2, h3⟩ := hinv' e' (List.mem_of_mem_filter he')
          exact ⟨by omega, by omega, h2, h3.toCanDraw⟩
        · rw [if_neg hmin] at hw
          cases hw
      · exact ih (d + 1) (wave.flatMap (stepItem item)) hrest hinv' w hw

lemma lookup_isSome_mem_keys : ∀ (m : List (Char × WordCouple)) (c : Char),
    (m.lookup c).isSome = true → c ∈ m.map Prod.fst := by
  intro m
  induction m with
  | nil => intro c h; cases h
  | cons p rest ih =>
    intro c h
    obtain ⟨k, v⟩ := p
    by_cases hck : c = k
    · subst hck
      exact List.mem_cons_self _ _
    · have hbeq : (c == k) = false := beq_eq_false_iff_ne.mpr hck
      have hl : (rest.lookup c).isSome = true := by
        have hstep : ((k, v) :: rest).lookup c = rest.lookup c := by
          simp [List.lookup, hbeq]
        rw [hstep] at h
        exact h
      exact List.mem_cons_of_mem _ (ih c hl)

lemma maskOkB_pointwise : ∀ (ms : List MaskItem) (w : List Char),
    maskOkB ms w = true →
    ∀ (i : Nat) (hi : i < w.length) (hm : i < ms.length),
      (∀ c, ms.get ⟨i, hm⟩ = MaskItem.letter c → w.get ⟨i, hi⟩ = c) ∧
      (∀ m, ms.get ⟨i, hm⟩ = MaskItem.dict m → m.isEmpty = false →
        w.get ⟨i, hi⟩ ∈ m.map Prod.fst) ∧
      ms.get ⟨i, hm⟩ ≠ MaskItem.dead := by
  intro ms
  induction ms with
  | nil =>
    intro w h i hi hm
    exact absurd hm (by simp)
  | cons m0 ms' ih =>
    intro w h i hi hm
    cases w with
    | nil => exact absurd hi (by simp)
    | cons c cs =>
      have hsplit : (itemOkB m0 c && maskOkB ms' cs) = true := h
      rw [Bool.and_eq_true] at hsplit
      cases i with
      | zero =>
        refine ⟨?_, ?_, ?_⟩
        · intro a ha
          have : m0 = MaskItem.letter a := ha
          subst this
          have : decide (c = a) = true := hsplit.1
          exact of_decide_eq_true this
        · intro m hm0 hne
          have : m0 = MaskItem.dict m := hm0
          subst this
          have hor : (m.isEmpty || (m.lookup c).isSome) = true := hsplit.1
          rw [hne, Bool.false_or] at hor
          exact lookup_isSome_mem_keys m c hor
        · intro hd
          have : m0 = MaskItem.dead := hd
          subst this
          cases hsplit.1
      | succ j =>
        exact ih cs hsplit.2 j (by simpa using hi) (by simpa using hm)

/-- C1: every word returned by the masked rack search has length between
`min_length` and the mask length; at every offset it matches the mask (a
board letter exactly, a cross-constraint dict through one of its keys, and
never a dead cell, so no word extends past a dead cell); and its letters at
the non-board offsets can be drawn from the rack, a blank standing for any
letter by consuming the blank instead of that letter. -/
theorem possible_words_sound (t : Trie) (mask : List MaskItem)
    (tile_list : List Char) (min_length : Nat) (ws : List (List Char))
    (hmin : 1 ≤ min_length) (hmask : mask.length ≤ 15)
    (hws : possible_words_for_mask_with_rack t mask tile_list min_length = some ws) :
    ∀ w ∈ ws,
      (min_length ≤ w.length ∧ w.length ≤ mask.length) ∧
      (∀ (i : Nat) (hi : i < w.length) (hm : i < mask.length),
        (∀ c, mask.get ⟨i, hm⟩ = MaskItem.letter c → w.get ⟨i, hi⟩ = c) ∧
        (∀ m, mask.get ⟨i, hm⟩ = MaskItem.dict m → m.isEmpty = false →
          w.get ⟨i, hi⟩ ∈ m.map Prod.fst) ∧
        mask.get ⟨i, hm⟩ ≠ MaskItem.dead) ∧
      canDraw (nonBoardLetters mask w) tile_list = true := by
  intro w hw
  rw [possible_words_for_mask_with_rack] at hws
  have hdep : mask.length ≤ t.max_depth := by
    by_contra hdep
    rw [if_neg hdep] at hws
    exact Option.noConfusion hws
  rw [if_pos hdep, if_neg (by omega : ¬min_length = 0)] at hws
  rw [← Option.some.inj hws] at hw
  have hinit : ∀ e ∈ [(⟨[], t, tile_list⟩ : WaveEntry)],
      e.word.length = 0 ∧ maskOkB mask e.word = true ∧
        Draws (nonBoardLetters mask e.word) tile_list e.tiles := by
    intro e he
    have heq : e = ⟨[], t, tile_list⟩ := List.mem_singleton.mp he
    subst heq
    refine ⟨rfl, maskOkB_nil_right mask, ?_⟩
    show Draws (nonBoardLetters mask []) tile_list tile_list
    rw [nonBoardLetters_nil_right]
    exact Draws.nil tile_list
  have hsound := searchLoop_sound mask tile_list min_length mask 0
    [⟨[], t, tile_list⟩] (List.drop_zero mask).symm hinit w hw
  exact ⟨⟨hsound.1, hsound.2.1⟩,
    maskOkB_pointwise mask w hsound.2.2.1, hsound.2.2.2⟩

/-- Witness for C1 on a concrete trie, mask, rack and returned word: the
search over the mask [Open, Letter B, Open] with rack AA and minimum length 2
returns the words AB and ABA, and AB satisfies all three conditions. -/
theorem possible_words_sound_witness :
    (1 ≤ 2 ∧ ([MaskItem.dict [], MaskItem.letter 'B', MaskItem.dict []] : List MaskItem).length ≤ 15 ∧
      possible_words_for_mask_with_rack trieABA
        [MaskItem.dict [], MaskItem.letter 'B', MaskItem.dict []] ['A', 'A'] 2
        = some [['A', 'B'], ['A', 'B', 'A']]) ∧
    ((2 ≤ (['A', 'B'] : List Char).length ∧
      (['A', 'B'] : List Char).length ≤
        ([MaskItem.dict [], MaskItem.letter 'B', MaskItem.dict []] : List MaskItem).length) ∧
    (∀ (i : Nat) (hi : i < (['A', 'B'] : List Char).length)
        (hm : i < ([MaskItem.dict [], MaskItem.letter 'B', MaskItem.dict []] : List MaskItem).length),
      (∀ c, ([MaskItem.dict [], MaskItem.letter 'B', MaskItem.dict []] : List MaskItem).get ⟨i, hm⟩
          = MaskItem.letter c → (['A', 'B'] : List Char).get ⟨i, hi⟩ = c) ∧
      (∀ m, ([MaskItem.dict [], MaskItem.letter 'B', MaskItem.dict []] : List MaskItem).get ⟨i, hm⟩
          = MaskItem.dict m → m.isEmpty = false →
        (['A', 'B'] : List Char).get ⟨i, hi⟩ ∈ m.map Prod.fst) ∧
      ([MaskItem.dict [], MaskItem.letter 'B', MaskItem.dict []] : List MaskItem).get ⟨i, hm⟩
        ≠ MaskItem.dead) ∧
    canDraw (nonBoardLetters [MaskItem.dict [], MaskItem.letter 'B', MaskItem.dict []]
      ['A', 'B']) ['A', 'A'] = true) :=
  ⟨by decide,
    possible_words_sound trieABA [MaskItem.dict [], MaskItem.letter 'B', MaskItem.dict []]
      ['A', 'A'] 2 [['A', 'B'], ['A', 'B', 'A']] (by decide) (by decide) (by decide)
      ['A', 'B'] (by decide)⟩

end Scrabble
